import Mathlib

/-!
Verification development for the `poc-monotrail` sources:

* `src/requirements_txt.rs` — a recursive-descent parser for a subset of the
  `requirements.txt` syntax (requirements, `-r`/`-c` includes, `-e`, `--hash`).
* `crates/install-wheel-rs/src/lib.rs` — the high level wheel-install entry
  point `install_wheel_in_venv` and its error enum.

The Rust code is shallowly embedded: the `unscanny::Scanner` becomes a pair of
a character list and a cursor (character offsets play the role of byte
offsets; all test inputs here are ASCII, where the two coincide), the
filesystem becomes an association list from paths to file contents, and the
unbounded recursion through `-r`/`-c` file inclusion (the Rust code has no
cycle detection) is made total with an explicit fuel parameter: `none` means
the fuel ran out, i.e. the Rust code would still be running.
-/

set_option maxHeartbeats 4000000
set_option maxRecDepth 8000

/-- Character predicate of Rust `char::is_whitespace`: the Unicode
`White_Space` property. -/
def isRustWhitespace (c : Char) : Bool :=
  c.toNat = 0x20 || (0x9 ≤ c.toNat && c.toNat ≤ 0xD) || c.toNat = 0x85 ||
  c.toNat = 0xA0 || c.toNat = 0x1680 ||
  (0x2000 ≤ c.toNat && c.toNat ≤ 0x200A) ||
  c.toNat = 0x2028 || c.toNat = 0x2029 || c.toNat = 0x202F ||
  c.toNat = 0x205F || c.toNat = 0x3000

/-- Character predicate of Rust `char::is_ascii_alphanumeric`. -/
def isAsciiAlphanumeric (c : Char) : Bool :=
  ('a' ≤ c && c ≤ 'z') || ('A' ≤ c && c ≤ 'Z') || ('0' ≤ c && c ≤ '9')

/-- Does the text start with `--` (the hash-marker lookahead
`s.after().starts_with("--")` in `parse_requirement_and_hashes`)? -/
def isDashDash (l : List Char) : Bool :=
  ['-', '-'].isPrefixOf l

/-- Length of the wrappable-whitespace run at the head of `l`, i.e. how much
`eat_wrappable_whitespace` consumes: whitespace in which a backslash directly
followed by a newline also counts, possibly repeated.  The Rust code eats a
whitespace block and then loops `eat_if("\\\n"); eat_whitespace()`; this
single-pass form consumes exactly the same characters because the two token
shapes (one whitespace character / the two-character `\` + newline pair) are
distinguished by their first character. -/
def wrapWsLen : List Char → Nat
  | [] => 0
  | c :: rest =>
    if isRustWhitespace c then 1 + wrapWsLen rest
    else if c = '\\' then
      match rest with
      | '\n' :: rest2 => 2 + wrapWsLen rest2
      | _ => 0
    else 0

/-- How many characters `s.eat_while("--hash")` consumes: the length of the
longest prefix made of repetitions of the literal `--hash`. -/
def hashRepLen : List Char → Nat
  | '-' :: '-' :: 'h' :: 'a' :: 's' :: 'h' :: rest => 6 + hashRepLen rest
  | _ => 0

/-- The `unscanny::Scanner`: the full input plus a cursor offset.  Offsets are
character offsets into `input`. -/
structure Scanner where
  input : List Char
  pos : Nat
deriving Repr, DecidableEq

/-- Text after the cursor (`Scanner::after`). -/
def Scanner.after (s : Scanner) : List Char :=
  s.input.drop s.pos

/-- Whether the scanner is at the end (`Scanner::done`). -/
def Scanner.done (s : Scanner) : Bool :=
  s.after.isEmpty

/-- Next character without consuming it (`Scanner::peek`). -/
def Scanner.peek (s : Scanner) : Option Char :=
  s.after.head?

/-- Move the cursor forward by `n` characters. -/
def Scanner.advance (s : Scanner) (n : Nat) : Scanner :=
  ⟨s.input, s.pos + n⟩

/-- Consume the whitespace run at the cursor (`Scanner::eat_whitespace`). -/
def Scanner.eatWhitespace (s : Scanner) : Scanner :=
  s.advance (s.after.takeWhile isRustWhitespace).length

/-- Conditionally consume a literal string (`Scanner::eat_if` with a `&str`
pattern). -/
def Scanner.eatIfStr (s : Scanner) (pat : List Char) : Bool × Scanner :=
  if pat.isPrefixOf s.after then (true, s.advance pat.length) else (false, s)

/-- Conditionally consume one given character (`Scanner::eat_if` with a `char`
pattern). -/
def Scanner.eatIfChar (s : Scanner) (c : Char) : Bool × Scanner :=
  if s.peek = some c then (true, s.advance 1) else (false, s)

/-- Conditionally consume one character matching a predicate (`Scanner::eat_if`
with a closure pattern). -/
def Scanner.eatIfPred (s : Scanner) (p : Char → Bool) : Bool × Scanner :=
  match s.peek with
  | some c => if p c then (true, s.advance 1) else (false, s)
  | none => (false, s)

/-- Consume until a character matching `p` (or the end) and return the
consumed text (`Scanner::eat_until`; the match itself is not consumed). -/
def Scanner.eatUntilPred (s : Scanner) (p : Char → Bool) : List Char × Scanner :=
  let taken := s.after.takeWhile (fun c => !(p c))
  (taken, s.advance taken.length)

/-- Consume one character, if any (`Scanner::eat`). -/
def Scanner.eat (s : Scanner) : Option Char × Scanner :=
  match s.peek with
  | some c => (some c, s.advance 1)
  | none => (none, s)

/-- The helper `eat_wrappable_whitespace`: eat whitespace in which escaped
line breaks (`\` directly before a newline) also count, and return the eaten
text. -/
def Scanner.eatWrappableWhitespace (s : Scanner) : List Char × Scanner :=
  let n := wrapWsLen s.after
  (s.after.take n, s.advance n)

/-- The requirement-body scan loop from `parse_requirement_and_hashes`,
expressed over the text after the cursor (`rest`) and the absolute cursor
offset (`pos`); returns `(end, has_hashes, cursor after the loop)`.  Each
round records `end := cursor`, breaks when it eats a newline, breaks with
`has_hashes` when a nonempty wrappable-whitespace run is followed by `--`
(the whitespace stays eaten), and otherwise eats one more character, breaking
at the end of input. -/
def scanReqBody (rest : List Char) (pos : Nat) : Nat × Bool × Nat :=
  match rest with
  | [] => (pos, false, pos)
  | c :: rest' =>
    if c = '\n' then (pos, false, pos + 1)
    else
      let w := wrapWsLen (c :: rest')
      if w ≠ 0 && isDashDash ((c :: rest').drop w) then (pos, true, pos + w)
      else
        match h : (c :: rest').drop w with
        | [] => (pos, false, pos + w)
        | _ :: rest2 => scanReqBody rest2 (pos + w + 1)
termination_by rest.length
decreasing_by
  have hlen := congrArg List.length h
  simp only [List.length_drop, List.length_cons] at hlen
  simp only [List.length_cons]
  omega


/-! ## Paths, filesystem, and the data model -/

/-- A filesystem path, as a list of components (`std::path::PathBuf`). -/
abbrev FsPath := List String

/-- The parent directory (`Path::parent().unwrap()` in `parse_entry`; the
code has just read the file, so the path has a final component). -/
def FsPath.parent (p : FsPath) : FsPath :=
  p.dropLast

/-- Join a directory with a relative path given as raw text
(`parent.join(requirements_file)`); the text is split into components at
`/`.  Only relative sub-paths occur in this code. -/
def FsPath.join (dir : FsPath) (rel : List Char) : FsPath :=
  dir ++ (rel.splitOn '/').map (fun cs => String.mk cs)

/-- The filesystem seen by the parser: a map from paths to file contents.
`RequirementsTxt::parse` is a function of its input text tree, so the whole
tree is passed in explicitly. -/
abbrev Fs := List (FsPath × List Char)

/-- A requirement produced by the external PEP 508 parser.

Modelled from the spec: `pep508_rs::Requirement` is an external collaborator
("the dependency-specifier grammar itself ... is delegated to a separate,
already-correct parser"), not part of this repository's sources; only its
interface matters here, so a requirement is represented by its normalized
(whitespace-trimmed) specifier text. -/
structure Requirement where
  raw : List Char
deriving Repr, DecidableEq

/-- An error of the external PEP 508 parser, carrying the rejected text.

Modelled from the spec: `pep508_rs::Pep508Error` is external to this
repository. -/
structure Pep508Error where
  input : List Char
deriving Repr, DecidableEq

/-- Trim whitespace from both ends (used by the modelled PEP 508 parser:
the grammar permits surrounding whitespace). -/
def trimWs (l : List Char) : List Char :=
  ((l.dropWhile isRustWhitespace).reverse.dropWhile isRustWhitespace).reverse

/-- The external dependency-specifier parser.

Modelled from the spec: `pep508_rs::Requirement::from_str` is out of scope
("name/extras/version-constraint parsing is delegated to a separate,
already-correct parser").  The model keeps just what the claims need: a
specifier must, after surrounding whitespace, start with an ASCII
alphanumeric (the first character of a package name) and contain only ASCII
text (so that e.g. the `ö` of the repository's own invalid-requirement test
is rejected); anything else fails with an error carrying the rejected
text. -/
def Requirement.from_str (l : List Char) : Except Pep508Error Requirement :=
  let t := trimWs l
  if (t.head?.elim false isAsciiAlphanumeric) && t.all (fun c => c.toNat < 0x80) then
    .ok ⟨t⟩
  else
    .error ⟨l⟩

/-- A requirement plus its metadata from the requirements.txt
(`RequirementEntry`). -/
structure RequirementEntry where
  requirement : Requirement
  hashes : List (List Char)
  editable : Bool
deriving Repr, DecidableEq

/-- Parsed and flattened requirements.txt with requirements and constraints
(`RequirementsTxt`). -/
structure RequirementsTxt where
  requirements : List RequirementEntry
  constraints : List Requirement
deriving Repr, DecidableEq

/-- The `Default::default()` value: both lists empty. -/
def RequirementsTxt.default : RequirementsTxt :=
  ⟨[], []⟩

/-- The data of the `message: format!(...)` strings of the two
`RequirementsTxtError::Parser` sites, kept as structured data instead of
formatted text. -/
inductive ParserMessage where
  /-- `parse_value`: `Expected '=' or whitespace, found {:?}` with `s.peek()`. -/
  | expectedEqOrWhitespace (found : Option Char)
  /-- `parse_hashes`: `Expected '--hash', found {:?}` with the eaten
  non-whitespace token. -/
  | expectedHash (found : List Char)
deriving Repr, DecidableEq

/-- Error parsing requirements.txt (`RequirementsTxtError`).  The `IO`
variant is written `ioError` and carries the path that could not be read
(`fs_err` wraps the failing path into the error). -/
inductive RequirementsTxtError where
  | ioError (path : FsPath)
  | Parser (message : ParserMessage) (file : FsPath) (location : Nat)
  | Pep508 (source : Pep508Error) (file : FsPath) (start : Nat) (stop : Nat)
  | Subfile (file : FsPath) (source : RequirementsTxtError) (location : Nat)
deriving Repr, DecidableEq

/-- `fs::read_to_string`: look the path up in the filesystem; a missing file
is the I/O failure mode. -/
def read_to_string (fs : Fs) (p : FsPath) : Except RequirementsTxtError (List Char) :=
  match List.lookup p fs with
  | some content => .ok content
  | none => .error (.ioError p)

/-! ## The requirements.txt parser -/

/-- Trim trailing whitespace (`str::trim_end` on the value returned by
`parse_value`). -/
def trim_end (l : List Char) : List Char :=
  (l.reverse.dropWhile isRustWhitespace).reverse

/-- The until-pattern `['\n', '#']` used for `-r`/`-c` values. -/
def nlOrHash (c : Char) : Bool :=
  c = '\n' || c = '#'

/-- In `-<key>=<value>` or `-<key> value`, parse the part after the key
(`parse_value`): either an explicit `=` or whitespace separates key and
value; otherwise a positioned `Parser` error. -/
def parse_value (s : Scanner) (stopAt : Char → Bool) (requirements_txt : FsPath) :
    Except RequirementsTxtError (List Char × Scanner) :=
  match s.eatIfChar '=' with
  | (true, s1) =>
    let (v, s2) := s1.eatUntilPred stopAt
    .ok (trim_end v, s2)
  | (false, _) =>
    match s.eatIfPred isRustWhitespace with
    | (true, s1) =>
      let s2 := s1.eatWhitespace
      let (v, s3) := s2.eatUntilPred stopAt
      .ok (trim_end v, s3)
    | (false, _) =>
      .error (.Parser (.expectedEqOrWhitespace s.peek) requirements_txt s.pos)

theorem parse_value_ok_shape {s : Scanner} {u : Char → Bool} {f : FsPath}
    {v : List Char} {s' : Scanner} (h : parse_value s u f = .ok (v, s')) :
    s'.input = s.input ∧ s.pos ≤ s'.pos := by
  simp only [parse_value, Scanner.eatIfChar, Scanner.eatIfPred, Scanner.eatUntilPred,
    Scanner.eatWhitespace, Scanner.advance] at h
  by_cases h1 : s.peek = some '='
  · rw [if_pos h1] at h
    simp only [Except.ok.injEq, Prod.mk.injEq] at h
    rw [← h.2]
    refine ⟨rfl, ?_⟩
    show s.pos ≤ s.pos + 1 + _
    omega
  · rw [if_neg h1] at h
    dsimp only at h
    rcases hp : s.peek with - | c <;> rw [hp] at h <;> dsimp only at h
    · simp at h
    · by_cases h2 : isRustWhitespace c
      · rw [if_pos h2] at h
        dsimp only at h
        simp only [Except.ok.injEq, Prod.mk.injEq] at h
        rw [← h.2]
        refine ⟨rfl, ?_⟩
        show s.pos ≤ s.pos + 1 + _ + _
        omega
      · rw [if_neg h2] at h
        simp at h

theorem hashRepLen_le (l : List Char) : hashRepLen l ≤ l.length := by
  induction l using hashRepLen.induct with
  | case1 rest ih => simpa [hashRepLen] using by omega
  | case2 l hl => simp [hashRepLen, hl]

theorem hashRepLen_six {l : List Char} (h : hashRepLen l ≠ 0) : 6 ≤ hashRepLen l := by
  induction l using hashRepLen.induct with
  | case1 rest ih => simp [hashRepLen]
  | case2 l hl => simp [hashRepLen, hl] at h

/-- The `loop` in `parse_hashes`: eat wrappable whitespace; if the next token
is not (a repetition of) `--hash`, stop; otherwise parse one more value and
continue. -/
def parse_hashes_loop (hashes : List (List Char)) (s : Scanner) (requirements_txt : FsPath) :
    Except RequirementsTxtError (List (List Char) × Scanner) :=
  let s1 := (s.eatWrappableWhitespace).2
  let n := hashRepLen s1.after
  if hn : n = 0 then .ok (hashes, s1)
  else
    match hpv : parse_value (s1.advance n) isRustWhitespace requirements_txt with
    | .error e => .error e
    | .ok (hash, s3) => parse_hashes_loop (hashes ++ [hash]) s3 requirements_txt
termination_by s.input.length - s.pos
decreasing_by
  obtain ⟨hi, hp⟩ := parse_value_ok_shape hpv
  have h6 : 6 ≤ n := hashRepLen_six hn
  have hle : n ≤ s1.after.length := hashRepLen_le _
  rw [hi]
  simp only [s1, n, Scanner.eatWrappableWhitespace, Scanner.advance, Scanner.after,
    List.length_drop] at hp h6 hle ⊢
  omega

/-- Parse `--hash=... --hash ...` after a requirement (`parse_hashes`): the
cursor must literally be at `--hash`, else a positioned `Parser` error. -/
def parse_hashes (s : Scanner) (requirements_txt : FsPath) :
    Except RequirementsTxtError (List (List Char) × Scanner) :=
  if hashRepLen s.after = 0 then
    .error (.Parser (.expectedHash (s.eatUntilPred isRustWhitespace).1)
      requirements_txt ((s.eatUntilPred isRustWhitespace).2.pos))
  else
    match parse_value (s.advance (hashRepLen s.after)) isRustWhitespace requirements_txt with
    | .error e => .error e
    | .ok (hash, s2) => parse_hashes_loop [hash] s2 requirements_txt

/-- Parse a PEP 508 requirement with optional trailing hashes
(`parse_requirement_and_hashes`): scan the requirement body, hand the
captured substring `content[start..end]` to the external specifier parser
(wrapping its failure with the file and the `start..end` offsets), then
parse hashes if the body scan stopped at a `--` token. -/
def parse_requirement_and_hashes (s : Scanner) (content : List Char)
    (requirements_txt : FsPath) :
    Except RequirementsTxtError ((Requirement × List (List Char)) × Scanner) :=
  match scanReqBody s.after s.pos with
  | (stop, has_hashes, posAfter) =>
    match Requirement.from_str ((content.drop s.pos).take (stop - s.pos)) with
    | .error err => .error (.Pep508 err requirements_txt s.pos stop)
    | .ok requirement =>
      if has_hashes then
        match parse_hashes ⟨s.input, posAfter⟩ requirements_txt with
        | .error e => .error e
        | .ok (hashes, s2) => .ok ((requirement, hashes), s2)
      else .ok ((requirement, []), ⟨s.input, posAfter⟩)

/-- Parse a single entry: a requirement, an inclusion or a comment line
(`RequirementsTxt::parse_entry`).  Recursive parses of included files go
through `recur`; the result is the updated accumulator and scanner (the Rust
method mutates `self` and `s` in place), `none` when a recursive parse ran
out of fuel. -/
def parse_entry (recur : FsPath → Option (Except RequirementsTxtError RequirementsTxt))
    (data : RequirementsTxt) (s : Scanner) (content : List Char)
    (requirements_txt : FsPath) :
    Option (Except RequirementsTxtError (RequirementsTxt × Scanner)) :=
  let parent := requirements_txt.parent
  let s := s.eatWhitespace
  match s.eatIfStr ['#'] with
  | (true, s) =>
    -- skip comments
    some (.ok (data, (s.eatUntilPred (fun c => c = '\n')).2))
  | (false, s) =>
  match s.eatIfStr ['-', 'r'] with
  | (true, s) =>
    match parse_value s nlOrHash requirements_txt with
    | .error e => some (.error e)
    | .ok (requirements_file, s') =>
      match recur (parent.join requirements_file) with
      | none => none
      | some (.error err) => some (.error (.Subfile requirements_txt err s.pos))
      | some (.ok sub) =>
        -- Add each to the correct category
        some (.ok (⟨data.requirements ++ sub.requirements,
                    data.constraints ++ sub.constraints⟩, s'))
  | (false, s) =>
  match s.eatIfStr ['-', 'c'] with
  | (true, s) =>
    match parse_value s nlOrHash requirements_txt with
    | .error e => some (.error e)
    | .ok (constraint_file, s') =>
      match recur (parent.join constraint_file) with
      | none => none
      | some (.error err) => some (.error (.Subfile requirements_txt err s.pos))
      | some (.ok sub) =>
        -- Here we add both to constraints
        some (.ok (⟨data.requirements,
                    data.constraints ++ sub.requirements.map (fun e => e.requirement)
                      ++ sub.constraints⟩, s'))
  | (false, s) =>
  match s.eatIfStr ['-', 'e'] with
  | (true, s) =>
    match parse_requirement_and_hashes s content requirements_txt with
    | .error e => some (.error e)
    | .ok ((requirement, hashes), s') =>
      some (.ok (⟨data.requirements ++ [⟨requirement, hashes, true⟩],
                  data.constraints⟩, s'))
  | (false, s) =>
  if s.peek.elim false isAsciiAlphanumeric then
    match parse_requirement_and_hashes s content requirements_txt with
    | .error e => some (.error e)
    | .ok ((requirement, hashes), s') =>
      some (.ok (⟨data.requirements ++ [⟨requirement, hashes, false⟩],
                  data.constraints⟩, s'))
  else
    some (.ok (data, s))

/-- The `while !s.done()` loop of `RequirementsTxt::parse`, with a fuel bound
on the number of iterations (the Rust loop has no such bound; `none` means
the bound was hit, i.e. the Rust loop would still be running). -/
def parse_loop (recur : FsPath → Option (Except RequirementsTxtError RequirementsTxt)) :
    Nat → RequirementsTxt → Scanner → List Char → FsPath →
    Option (Except RequirementsTxtError RequirementsTxt)
  | 0, _, _, _, _ => none
  | fuel + 1, data, s, content, requirements_txt =>
    if s.done then some (.ok data)
    else
      match parse_entry recur data s content requirements_txt with
      | none => none
      | some (.error e) => some (.error e)
      | some (.ok (data', s')) => parse_loop recur fuel data' s' content requirements_txt

/-- `RequirementsTxt::parse`: read the file, then run the statement loop on a
fresh scanner and default accumulator.  `fuel` bounds both loop iterations
and include depth; `none` means it ran out (the Rust code, which has no cycle
detection or other bound, would still be running). -/
def RequirementsTxt.parse : Nat → Fs → FsPath → Option (Except RequirementsTxtError RequirementsTxt)
  | 0, _, _ => none
  | fuel + 1, fs, requirements_txt =>
    match read_to_string fs requirements_txt with
    | .error e => some (.error e)
    | .ok content =>
      parse_loop (fun p => RequirementsTxt.parse fuel fs p) fuel
        RequirementsTxt.default ⟨content, 0⟩ content requirements_txt

/-! ## install-wheel-rs: the high level install entry point

`crates/install-wheel-rs/src/lib.rs` is in the sources; the modules it pulls
in (`install_location`, `wheel`, `wheel_tags`) are not, so their items are
modelled from the spec at their interface and the entry point is verified as
the composition the source writes down. -/

namespace InstallWheelRs

/-- Operating system of the running platform (`wheel_tags::Os`).

Modelled from the spec: the `wheel_tags` module is not among the sources;
only its role as a payload of the incompatible-wheel error matters here. -/
structure Os where
  name : String
deriving Repr, DecidableEq

/-- Architecture of the running platform (`wheel_tags::Arch`).

Modelled from the spec: as for `Os`. -/
structure Arch where
  name : String
deriving Repr, DecidableEq

/-- The error enum of `install-wheel-rs` (`lib.rs`).  Payload types defined
outside this repository (`io::Error`, `serde_json::Error`, `ZipError`,
`python_pkginfo::Error`, `walkdir::Error`, `csv::Error`,
`PlatformInfoError`) are modelled as their message strings or dropped. -/
inductive Error where
  | ioError (msg : String)
  | DirectUrlSerdeJson (msg : String)
  | IncompatibleWheel (os : Os) (arch : Arch)
  | InvalidWheel (msg : String)
  | InvalidPoetry (msg : String)
  | InvalidWheelFileName (filename : String) (msg : String)
  | PkgInfo (msg : String)
  | Zip (filename : String) (msg : String)
  | PythonSubcommand (msg : String)
  | WalkDir (msg : String)
  | RecordFile (msg : String)
  | RecordCsv (msg : String)
  | BrokenVenv (msg : String)
  | OsVersionDetection (msg : String)
  | PlatformInfo (msg : String)
  | Pep440
deriving Repr, DecidableEq

/-- Where to install a wheel (`install_location::InstallLocation`).

Modelled from the spec: "closed variant set, e.g. `Venv{root,
interpreter_version}` plus other multi-version record-store variants". -/
inductive InstallLocation where
  | Venv (venv_base : FsPath) (python_version : Nat × Nat)
  | Monotrail (monotrail_root : FsPath) (python_version : Nat × Nat)
deriving Repr, DecidableEq

/-- The capability token proving exclusive access to an install location
(`install_location::LockedDir`).

Modelled from the spec: holding one means the location's advisory lock was
acquired. -/
structure LockedDir where
  location : InstallLocation
deriving Repr, DecidableEq

/-- The effectful collaborators `install_wheel_in_venv` composes, gathered
into one record so the entry point stays a pure function of them.

Modelled from the spec: `Path::canonicalize` (OS call),
`InstallLocation::acquire_lock` ("`acquire_lock()` returns a `LockedDir` or
fails with a broken-environment error") and `wheel::install_wheel` ("runs the
installer ... returns the installed wheel's selected compatibility tag
string") are not among the sources.  `install_wheel`'s arguments follow the
call in `lib.rs`: locked location, wheel path, relocatable flag, compatible
tags, monotrail unique version, interpreter path. -/
structure InstallWorld where
  canonicalize : FsPath → Except Error FsPath
  acquire_lock : InstallLocation → Except Error LockedDir
  install_wheel : LockedDir → FsPath → Bool → List String → String → FsPath →
    Except Error String

/-- High level API: install a wheel in a virtualenv and return the tag of the
wheel (`install_wheel_in_venv`). -/
def install_wheel_in_venv (w : InstallWorld) (wheel venv interpreter : FsPath)
    (major minor : Nat) : Except Error String :=
  match w.canonicalize venv with
  | .error e => .error e
  | .ok venv_base =>
    let location := InstallLocation.Venv venv_base (major, minor)
    match w.acquire_lock location with
    | .error e => .error e
    | .ok locked_dir =>
      -- the `false` is the relocatable flag, "" the monotrail-only version
      w.install_wheel locked_dir wheel false [] "" interpreter

end InstallWheelRs

/-! ## Claim theorems -/

/-- C1: when `parse_entry` handles a `-c <path>` statement whose included
file parses to `sub`, every requirement of `sub` (already flattened through
any nested `-r`/`-c` inclusion by the recursive parse) is appended to the
outer `constraints` list as its bare `Requirement`, its hashes and editable
flag dropped; the outer `requirements` list is unchanged; and `sub`'s own
constraints are appended to the outer constraints. -/
theorem constraints_demote_included_requirements
    (fuel : Nat) (fs : Fs) (data : RequirementsTxt) (s s1 s2 : Scanner)
    (content : List Char) (path : FsPath) (t v : List Char) (sub : RequirementsTxt)
    (hws : s.eatWhitespace = s1)
    (hafter : s1.after = '-' :: 'c' :: t)
    (hv : parse_value (s1.advance 2) nlOrHash path = .ok (v, s2))
    (hsub : RequirementsTxt.parse fuel fs (path.parent.join v) = some (.ok sub)) :
    parse_entry (fun p => RequirementsTxt.parse fuel fs p) data s content path =
      some (.ok (⟨data.requirements,
        data.constraints ++ sub.requirements.map (fun e => e.requirement)
          ++ sub.constraints⟩, s2)) := by
  simp only [Scanner.advance] at hv
  unfold parse_entry
  rw [hws]
  simp +decide [Scanner.eatIfStr, hafter, List.isPrefixOf, Scanner.advance, hv, hsub]

/-- Fixture for the C1 witness: `a.txt` includes `b.txt` as a constraints
file; `b.txt` holds an editable requirement and a hashed requirement. -/
def fsC1 : Fs :=
  [(["a.txt"], "-c b.txt\n".data),
   (["b.txt"], "-e numpy==1\nscipy==2 --hash=sha256:abc\n".data)]

theorem constraints_demote_included_requirements_witness :
    parse_entry (fun p => RequirementsTxt.parse 4 fsC1 p) RequirementsTxt.default
      ⟨"-c b.txt\n".data, 0⟩ "-c b.txt\n".data ["a.txt"] =
      some (.ok (⟨[], [⟨"numpy==1".data⟩, ⟨"scipy==2".data⟩]⟩,
        ⟨"-c b.txt\n".data, 8⟩)) := by
  have hread : read_to_string fsC1 ["b.txt"] =
      .ok "-e numpy==1\nscipy==2 --hash=sha256:abc\n".data := by
    simp +decide [read_to_string, fsC1, List.lookup]
  have hsub : RequirementsTxt.parse 4 fsC1 (FsPath.join (FsPath.parent ["a.txt"]) "b.txt".data) =
      some (.ok ⟨[⟨⟨"numpy==1".data⟩, [], true⟩,
                  ⟨⟨"scipy==2".data⟩, ["sha256:abc".data], false⟩], []⟩) := by
    have hpath : FsPath.join (FsPath.parent ["a.txt"]) "b.txt".data = ["b.txt"] := by decide
    rw [hpath]
    simp +decide [RequirementsTxt.parse, parse_loop, parse_entry, parse_requirement_and_hashes,
      parse_hashes, parse_hashes_loop, parse_value, scanReqBody, hread,
      Scanner.eatWhitespace, Scanner.eatIfStr, Scanner.eatIfChar, Scanner.eatIfPred,
      Scanner.eatUntilPred, Scanner.eat, Scanner.eatWrappableWhitespace, Scanner.done,
      Scanner.peek, Scanner.after, Scanner.advance, wrapWsLen, hashRepLen, isDashDash,
      nlOrHash, trimWs, trim_end, Requirement.from_str, RequirementsTxt.default]
  have h := constraints_demote_included_requirements 4 fsC1 RequirementsTxt.default
    ⟨"-c b.txt\n".data, 0⟩ ⟨"-c b.txt\n".data, 0⟩ ⟨"-c b.txt\n".data, 8⟩
    "-c b.txt\n".data ["a.txt"] " b.txt\n".data "b.txt".data
    ⟨[⟨⟨"numpy==1".data⟩, [], true⟩, ⟨⟨"scipy==2".data⟩, ["sha256:abc".data], false⟩], []⟩
    (by decide) (by decide)
    (by simp +decide [parse_value, Scanner.eatIfChar, Scanner.eatIfPred, Scanner.eatUntilPred,
      Scanner.eatWhitespace, Scanner.peek, Scanner.after, Scanner.advance, nlOrHash, trim_end])
    hsub
  simpa [RequirementsTxt.default] using h

/-- C2: when `parse_entry` handles a `-r <path>` statement, the included path
is resolved against the parent directory of the file being parsed (not any
caller's directory), and the included file's recursively parsed requirements
and constraints are appended in place to the current result. -/
theorem requirements_include_merges_relative
    (fuel : Nat) (fs : Fs) (data : RequirementsTxt) (s s1 s2 : Scanner)
    (content : List Char) (path : FsPath) (t v : List Char) (sub : RequirementsTxt)
    (hws : s.eatWhitespace = s1)
    (hafter : s1.after = '-' :: 'r' :: t)
    (hv : parse_value (s1.advance 2) nlOrHash path = .ok (v, s2))
    (hsub : RequirementsTxt.parse fuel fs (path.parent.join v) = some (.ok sub)) :
    parse_entry (fun p => RequirementsTxt.parse fuel fs p) data s content path =
      some (.ok (⟨data.requirements ++ sub.requirements,
        data.constraints ++ sub.constraints⟩, s2)) := by
  simp only [Scanner.advance] at hv
  unfold parse_entry
  rw [hws]
  simp +decide [Scanner.eatIfStr, hafter, List.isPrefixOf, Scanner.advance, hv, hsub]

/-- Fixture for the C2 witness: a `-r` chain across directories.
`proj/a.txt` includes `sub/b.txt` relative to `proj/`, and `proj/sub/b.txt`
includes `c.txt` relative to `proj/sub/`, so the same relative name resolves
differently at each level. -/
def fsC2 : Fs :=
  [(["proj", "a.txt"], "-r sub/b.txt\n".data),
   (["proj", "sub", "b.txt"], "-r c.txt\n".data),
   (["proj", "sub", "c.txt"], "scipy==2.0\n".data)]

theorem requirements_include_merges_relative_witness :
    parse_entry (fun p => RequirementsTxt.parse 8 fsC2 p)
      ⟨[⟨⟨"pandas".data⟩, [], false⟩], [⟨"old==1".data⟩]⟩
      ⟨"-r sub/b.txt\n".data, 0⟩ "-r sub/b.txt\n".data ["proj", "a.txt"] =
      some (.ok (⟨[⟨⟨"pandas".data⟩, [], false⟩, ⟨⟨"scipy==2.0".data⟩, [], false⟩],
        [⟨"old==1".data⟩]⟩, ⟨"-r sub/b.txt\n".data, 12⟩)) := by
  have hreadc : read_to_string fsC2 ["proj", "sub", "c.txt"] = .ok "scipy==2.0\n".data := by
    simp +decide [read_to_string, fsC2, List.lookup]
  have hreadb : read_to_string fsC2 ["proj", "sub", "b.txt"] = .ok "-r c.txt\n".data := by
    simp +decide [read_to_string, fsC2, List.lookup]
  have hc : RequirementsTxt.parse 7 fsC2 ["proj", "sub", "c.txt"] =
      some (.ok ⟨[⟨⟨"scipy==2.0".data⟩, [], false⟩], []⟩) := by
    rw [show (7:Nat) = 6+1 from rfl, RequirementsTxt.parse.eq_def]
    simp +decide [parse_loop, parse_entry, parse_requirement_and_hashes,
      parse_hashes, parse_hashes_loop, parse_value, scanReqBody, hreadc,
      Scanner.eatWhitespace, Scanner.eatIfStr, Scanner.eatIfChar, Scanner.eatIfPred,
      Scanner.eatUntilPred, Scanner.eat, Scanner.eatWrappableWhitespace, Scanner.done,
      Scanner.peek, Scanner.after, Scanner.advance, wrapWsLen, hashRepLen, isDashDash,
      nlOrHash, trimWs, trim_end, Requirement.from_str, RequirementsTxt.default]
  have hjc : FsPath.join (FsPath.parent ["proj", "sub", "b.txt"]) "c.txt".data =
      ["proj", "sub", "c.txt"] := by decide
  have hb : RequirementsTxt.parse 8 fsC2 ["proj", "sub", "b.txt"] =
      some (.ok ⟨[⟨⟨"scipy==2.0".data⟩, [], false⟩], []⟩) := by
    rw [show (8:Nat) = 7+1 from rfl, RequirementsTxt.parse.eq_def]
    simp +decide [parse_loop, parse_entry, parse_value, scanReqBody,
      hreadb, hjc, hc,
      Scanner.eatWhitespace, Scanner.eatIfStr, Scanner.eatIfChar, Scanner.eatIfPred,
      Scanner.eatUntilPred, Scanner.eat, Scanner.eatWrappableWhitespace, Scanner.done,
      Scanner.peek, Scanner.after, Scanner.advance, wrapWsLen, hashRepLen, isDashDash,
      nlOrHash, trimWs, trim_end, RequirementsTxt.default]
  have hjb : FsPath.join (FsPath.parent ["proj", "a.txt"]) "sub/b.txt".data =
      ["proj", "sub", "b.txt"] := by decide
  have h := requirements_include_merges_relative 8 fsC2
    ⟨[⟨⟨"pandas".data⟩, [], false⟩], [⟨"old==1".data⟩]⟩
    ⟨"-r sub/b.txt\n".data, 0⟩ ⟨"-r sub/b.txt\n".data, 0⟩ ⟨"-r sub/b.txt\n".data, 12⟩
    "-r sub/b.txt\n".data ["proj", "a.txt"] " sub/b.txt\n".data "sub/b.txt".data
    ⟨[⟨⟨"scipy==2.0".data⟩, [], false⟩], []⟩
    (by decide) (by decide)
    (by simp +decide [parse_value, Scanner.eatIfChar, Scanner.eatIfPred, Scanner.eatUntilPred,
      Scanner.eatWhitespace, Scanner.peek, Scanner.after, Scanner.advance, nlOrHash, trim_end])
    (by rw [hjb]; exact hb)
  simpa using h

/-- C6: when the recursive parse of a `-r`- or `-c`-included file fails with
`err`, `parse_entry` fails with `Subfile` wrapping `err` together with the
including file's path and the cursor offset taken directly after the `-r` or
`-c` flag was eaten — at each inclusion level, so chains of includes nest
`Subfile` from the outermost file down to the innermost cause. -/
theorem subfile_error_chains_include_location :
    (∀ (fuel : Nat) (fs : Fs) (data : RequirementsTxt) (s s1 s2 : Scanner)
        (content : List Char) (path : FsPath) (t v : List Char)
        (err : RequirementsTxtError),
        s.eatWhitespace = s1 →
        s1.after = '-' :: 'r' :: t →
        parse_value (s1.advance 2) nlOrHash path = .ok (v, s2) →
        RequirementsTxt.parse fuel fs (path.parent.join v) = some (.error err) →
        parse_entry (fun p => RequirementsTxt.parse fuel fs p) data s content path =
          some (.error (.Subfile path err (s1.pos + 2)))) ∧
    (∀ (fuel : Nat) (fs : Fs) (data : RequirementsTxt) (s s1 s2 : Scanner)
        (content : List Char) (path : FsPath) (t v : List Char)
        (err : RequirementsTxtError),
        s.eatWhitespace = s1 →
        s1.after = '-' :: 'c' :: t →
        parse_value (s1.advance 2) nlOrHash path = .ok (v, s2) →
        RequirementsTxt.parse fuel fs (path.parent.join v) = some (.error err) →
        parse_entry (fun p => RequirementsTxt.parse fuel fs p) data s content path =
          some (.error (.Subfile path err (s1.pos + 2)))) := by
  constructor
  all_goals {
    intro fuel fs data s s1 s2 content path t v err hws hafter hv hsub
    simp only [Scanner.advance] at hv
    unfold parse_entry
    rw [hws]
    simp +decide [Scanner.eatIfStr, hafter, List.isPrefixOf, Scanner.advance, hv, hsub]
  }

/-- Fixture for the C6 witness: `a.txt` includes `b.txt`, which includes a
file that does not exist, so the innermost cause is an I/O error. -/
def fsC6 : Fs :=
  [(["a.txt"], "-r b.txt\n".data),
   (["b.txt"], "-r missing.txt\n".data)]

theorem subfile_error_chains_include_location_witness :
    parse_entry (fun p => RequirementsTxt.parse 4 fsC6 p) RequirementsTxt.default
      ⟨"-r b.txt\n".data, 0⟩ "-r b.txt\n".data ["a.txt"] =
      some (.error (.Subfile ["a.txt"]
        (.Subfile ["b.txt"] (.ioError ["missing.txt"]) 2) 2)) := by
  have hreadb : read_to_string fsC6 ["b.txt"] = .ok "-r missing.txt\n".data := by
    simp +decide [read_to_string, fsC6, List.lookup]
  have hmiss : RequirementsTxt.parse 3 fsC6 ["missing.txt"] =
      some (.error (.ioError ["missing.txt"])) := by
    rw [show (3:Nat) = 2+1 from rfl, RequirementsTxt.parse.eq_def]
    simp +decide [read_to_string, fsC6, List.lookup]
  have hjm : FsPath.join (FsPath.parent ["b.txt"]) "missing.txt".data = ["missing.txt"] := by
    decide
  have hb : RequirementsTxt.parse 4 fsC6 ["b.txt"] =
      some (.error (.Subfile ["b.txt"] (.ioError ["missing.txt"]) 2)) := by
    rw [show (4:Nat) = 3+1 from rfl, RequirementsTxt.parse.eq_def]
    simp +decide [parse_loop, parse_entry, parse_value, hreadb, hjm, hmiss,
      Scanner.eatWhitespace, Scanner.eatIfStr, Scanner.eatIfChar, Scanner.eatIfPred,
      Scanner.eatUntilPred, Scanner.eat, Scanner.done,
      Scanner.peek, Scanner.after, Scanner.advance,
      nlOrHash, trim_end, RequirementsTxt.default]
  have hjb : FsPath.join (FsPath.parent ["a.txt"]) "b.txt".data = ["b.txt"] := by decide
  have h := subfile_error_chains_include_location.1 4 fsC6 RequirementsTxt.default
    ⟨"-r b.txt\n".data, 0⟩ ⟨"-r b.txt\n".data, 0⟩ ⟨"-r b.txt\n".data, 8⟩
    "-r b.txt\n".data ["a.txt"] " b.txt\n".data "b.txt".data
    (.Subfile ["b.txt"] (.ioError ["missing.txt"]) 2)
    (by decide) (by decide)
    (by simp +decide [parse_value, Scanner.eatIfChar, Scanner.eatIfPred, Scanner.eatUntilPred,
      Scanner.eatWhitespace, Scanner.peek, Scanner.after, Scanner.advance, nlOrHash, trim_end])
    (by rw [hjb]; exact hb)
  simpa using h

theorem hashRepLen_eq_zero {l : List Char}
    (h : ¬ (['-', '-', 'h', 'a', 's', 'h'].isPrefixOf l = true)) : hashRepLen l = 0 := by
  induction l using hashRepLen.induct with
  | case1 rest ih => simp [List.isPrefixOf] at h
  | case2 l hl => simp [hashRepLen, hl]

/-- Fixture for C7: the spec's hash example line. -/
def fsC7 : Fs :=
  [(["requirements.txt"], "numpy==1.26 --hash=sha256:abc --hash=sha256:def\n".data)]

/-- C8 counterexample: the claim "for each of `-r`, `-c`, `-e` both the
`=value` and the whitespace-separated form produce the same parse result"
fails for `-e`, which never reads a key-value form: `-e=numpy==1` hands
`=numpy==1` to the specifier parser (a `Pep508` failure), while
`-e numpy==1` yields an editable entry.  It also fails for values starting
with whitespace: `-r= x` keeps the leading space in the value, `-r  x` does
not. -/
theorem flag_value_forms_counterexample :
    (RequirementsTxt.parse 3 [(["requirements.txt"], "-e=numpy==1\n".data)]
        ["requirements.txt"] =
      some (.error (.Pep508 ⟨"=numpy==1".data⟩ ["requirements.txt"] 2 11))) ∧
    (RequirementsTxt.parse 3 [(["requirements.txt"], "-e numpy==1\n".data)]
        ["requirements.txt"] =
      some (.ok ⟨[⟨⟨"numpy==1".data⟩, [], true⟩], []⟩)) ∧
    (parse_value ⟨"-r= x\n".data, 2⟩ nlOrHash ["requirements.txt"] =
      .ok (" x".data, ⟨"-r= x\n".data, 5⟩)) ∧
    (parse_value ⟨"-r  x\n".data, 2⟩ nlOrHash ["requirements.txt"] =
      .ok ("x".data, ⟨"-r  x\n".data, 5⟩)) := by
  refine ⟨?_, ?_, ?_, ?_⟩
  · rw [show (3:Nat) = 2+1 from rfl, RequirementsTxt.parse.eq_def]
    simp +decide [parse_loop, parse_entry, parse_requirement_and_hashes,
      parse_value, scanReqBody, read_to_string, List.lookup,
      Scanner.eatWhitespace, Scanner.eatIfStr, Scanner.eatIfChar, Scanner.eatIfPred,
      Scanner.eatUntilPred, Scanner.eat, Scanner.eatWrappableWhitespace, Scanner.done,
      Scanner.peek, Scanner.after, Scanner.advance, wrapWsLen, hashRepLen, isDashDash,
      nlOrHash, trimWs, trim_end, Requirement.from_str, RequirementsTxt.default]
  · rw [show (3:Nat) = 2+1 from rfl, RequirementsTxt.parse.eq_def]
    simp +decide [parse_loop, parse_entry, parse_requirement_and_hashes,
      parse_value, scanReqBody, read_to_string, List.lookup,
      Scanner.eatWhitespace, Scanner.eatIfStr, Scanner.eatIfChar, Scanner.eatIfPred,
      Scanner.eatUntilPred, Scanner.eat, Scanner.eatWrappableWhitespace, Scanner.done,
      Scanner.peek, Scanner.after, Scanner.advance, wrapWsLen, hashRepLen, isDashDash,
      nlOrHash, trimWs, trim_end, Requirement.from_str, RequirementsTxt.default]
  · simp +decide [parse_value, Scanner.eatIfChar, Scanner.eatIfPred, Scanner.eatUntilPred,
      Scanner.eatWhitespace, Scanner.peek, Scanner.after, Scanner.advance, nlOrHash, trim_end]
  · simp +decide [parse_value, Scanner.eatIfChar, Scanner.eatIfPred, Scanner.eatUntilPred,
      Scanner.eatWhitespace, Scanner.peek, Scanner.after, Scanner.advance, nlOrHash, trim_end]

/-- C8 amended: (1) for the flags that go through `parse_value` (`-r`, `-c`),
the `=value` form and the whitespace-separated form parse the same value
whenever the value does not itself start with whitespace; (2) `-e` has no
key-value form at all: the text after `-e` is parsed as a requirement body,
and a whitespace-separated `-e <spec>` statement yields an entry with
`editable = true` for the parsed specifier. -/
theorem flag_value_forms_amended :
    (∀ (inp1 inp2 : List Char) (p1 p2 : Nat) (rest : List Char) (w0 : Char)
        (stopAt : Char → Bool) (f : FsPath),
      (⟨inp1, p1⟩ : Scanner).after = '=' :: rest →
      (⟨inp2, p2⟩ : Scanner).after = w0 :: rest →
      isRustWhitespace w0 = true →
      rest.head?.elim false isRustWhitespace = false →
      ∃ v s1 s2, parse_value ⟨inp1, p1⟩ stopAt f = .ok (v, s1) ∧
        parse_value ⟨inp2, p2⟩ stopAt f = .ok (v, s2)) ∧
    (∀ (recur : FsPath → Option (Except RequirementsTxtError RequirementsTxt))
        (data : RequirementsTxt) (s s1 s2 : Scanner) (content t : List Char)
        (path : FsPath) (req : Requirement) (hashes : List (List Char)),
      s.eatWhitespace = s1 →
      s1.after = '-' :: 'e' :: t →
      parse_requirement_and_hashes (s1.advance 2) content path = .ok ((req, hashes), s2) →
      parse_entry recur data s content path =
        some (.ok (⟨data.requirements ++ [⟨req, hashes, true⟩],
          data.constraints⟩, s2))) := by
  constructor
  · intro inp1 inp2 p1 p2 rest w0 stopAt f h1 h2 hw0 hrest
    simp only [Scanner.after] at h1 h2
    have hd1 : inp1.drop (p1 + 1) = rest := by
      have h := congrArg (List.drop 1) h1
      rw [List.drop_drop] at h
      simpa [Nat.add_comm] using h
    have hd2 : inp2.drop (p2 + 1) = rest := by
      have h := congrArg (List.drop 1) h2
      rw [List.drop_drop] at h
      simpa [Nat.add_comm] using h
    have htw : rest.takeWhile isRustWhitespace = [] := by
      cases rest with
      | nil => rfl
      | cons c r =>
        simp only [Option.elim, List.head?] at hrest
        simp [List.takeWhile, hrest]
    refine ⟨trim_end (rest.takeWhile (fun c => !(stopAt c))),
      ⟨inp1, p1 + 1 + (rest.takeWhile (fun c => !(stopAt c))).length⟩,
      ⟨inp2, p2 + 1 + (rest.takeWhile (fun c => !(stopAt c))).length⟩, ?_, ?_⟩
    · simp [parse_value, Scanner.eatIfChar, Scanner.peek, h1, Scanner.eatUntilPred,
        Scanner.after, Scanner.advance, hd1]
    · have hw0ne : w0 ≠ '=' := by
        intro hc
        rw [hc] at hw0
        simp [isRustWhitespace] at hw0
      simp [parse_value, Scanner.eatIfChar, Scanner.eatIfPred, Scanner.peek, h2,
        Scanner.eatWhitespace, Scanner.eatUntilPred, Scanner.after, Scanner.advance,
        hw0ne, hw0, hd2, htw]
  · intro recur data s s1 s2 content t path req hashes hws hafter hreq
    simp only [Scanner.advance] at hreq
    unfold parse_entry
    rw [hws]
    simp +decide [Scanner.eatIfStr, hafter, List.isPrefixOf, Scanner.advance, hreq]

theorem flag_value_forms_amended_witness :
    (∃ v s1 s2, parse_value ⟨"-r=x\n".data, 2⟩ nlOrHash ["requirements.txt"] = .ok (v, s1) ∧
      parse_value ⟨"-r x\n".data, 2⟩ nlOrHash ["requirements.txt"] = .ok (v, s2)) ∧
    parse_entry (fun _ => none) RequirementsTxt.default ⟨"-e numpy==1\n".data, 0⟩
      "-e numpy==1\n".data ["requirements.txt"] =
      some (.ok (⟨[⟨⟨"numpy==1".data⟩, [], true⟩], []⟩, ⟨"-e numpy==1\n".data, 12⟩)) := by
  constructor
  · exact flag_value_forms_amended.1 "-r=x\n".data "-r x\n".data 2 2 "x\n".data ' '
      nlOrHash ["requirements.txt"] (by decide) (by decide) (by decide) (by decide)
  · have hreq : parse_requirement_and_hashes (Scanner.advance ⟨"-e numpy==1\n".data, 0⟩ 2)
        "-e numpy==1\n".data ["requirements.txt"] =
        .ok ((⟨"numpy==1".data⟩, []), ⟨"-e numpy==1\n".data, 12⟩) := by
      simp +decide [parse_requirement_and_hashes, scanReqBody, Scanner.after, Scanner.advance,
        wrapWsLen, isDashDash, trimWs, Requirement.from_str]
    have h := flag_value_forms_amended.2 (fun _ => none) RequirementsTxt.default
      ⟨"-e numpy==1\n".data, 0⟩ ⟨"-e numpy==1\n".data, 0⟩ ⟨"-e numpy==1\n".data, 12⟩
      "-e numpy==1\n".data " numpy==1\n".data ["requirements.txt"]
      ⟨"numpy==1".data⟩ [] (by decide) (by decide) hreq
    simpa using h

/-- Append the lists of `d` in front of the data part of a `parse_entry`
result (errors and fuel exhaustion pass through). -/
def shiftResult (d : RequirementsTxt) :
    Option (Except RequirementsTxtError (RequirementsTxt × Scanner)) →
    Option (Except RequirementsTxtError (RequirementsTxt × Scanner)) :=
  Option.map (Except.map (fun p =>
    (⟨d.requirements ++ p.1.requirements, d.constraints ++ p.1.constraints⟩, p.2)))

/-- `parse_entry` only ever appends to the accumulator: its result on any
accumulator `d` is its result on the empty accumulator with `d`'s lists put
in front.  In particular errors and the resulting scanner position carry
nothing of the accumulated partial parse. -/
theorem parse_entry_shift (recur : FsPath → Option (Except RequirementsTxtError RequirementsTxt))
    (d : RequirementsTxt) (s : Scanner) (content : List Char) (path : FsPath) :
    parse_entry recur d s content path =
      shiftResult d (parse_entry recur RequirementsTxt.default s content path) := by
  unfold parse_entry shiftResult
  rcases h1 : (Scanner.eatWhitespace s).eatIfStr ['#'] with ⟨b1, t1⟩
  simp only [h1]
  cases b1
  case true => simp [RequirementsTxt.default, Except.map, Option.map]
  case false =>
  rcases h2 : t1.eatIfStr ['-', 'r'] with ⟨b2, t2⟩
  simp only [h2]
  cases b2
  case true =>
    rcases hv : parse_value t2 nlOrHash path with e | ⟨v, s'⟩ <;> simp only [hv]
    · simp [Except.map, Option.map]
    · rcases hr : recur (path.parent.join v) with - | er
      · simp [hr, Except.map, Option.map]
      · rcases er with e | sub <;>
          simp [hr, RequirementsTxt.default, Except.map, Option.map]
  case false =>
  rcases h3 : t2.eatIfStr ['-', 'c'] with ⟨b3, t3⟩
  simp only [h3]
  cases b3
  case true =>
    rcases hv : parse_value t3 nlOrHash path with e | ⟨v, s'⟩ <;> simp only [hv]
    · simp [Except.map, Option.map]
    · rcases hr : recur (path.parent.join v) with - | er
      · simp [hr, Except.map, Option.map]
      · rcases er with e | sub <;>
          simp [hr, RequirementsTxt.default, Except.map, Option.map]
  case false =>
  rcases h4 : t3.eatIfStr ['-', 'e'] with ⟨b4, t4⟩
  simp only [h4]
  cases b4
  case true =>
    rcases hreq : parse_requirement_and_hashes t4 content path with e | ⟨⟨req, hs⟩, s'⟩ <;>
      simp [hreq, RequirementsTxt.default, Except.map, Option.map]
  case false =>
  by_cases h5 : t4.peek.elim false isAsciiAlphanumeric = true
  · simp only [h5, if_pos]
    rcases hreq : parse_requirement_and_hashes t4 content path with e | ⟨⟨req, hs⟩, s'⟩ <;>
      simp [hreq, RequirementsTxt.default, Except.map, Option.map]
  · simp only [Bool.not_eq_true] at h5
    simp [h5, RequirementsTxt.default, Except.map, Option.map]

/-- C4: the statement loop of `RequirementsTxt::parse` fails independently of
the partial result accumulated so far: if it fails with error `e` from some
accumulator, it fails with exactly the same error from any other accumulator
(in particular the empty one).  Entries parsed before the failing statement
are therefore never observable through the caller's result, which is either
`Ok` of the complete parse or the bare error. -/
theorem parse_error_independent_of_accumulator
    (recur : FsPath → Option (Except RequirementsTxtError RequirementsTxt))
    (fuel : Nat) (d1 d2 : RequirementsTxt) (s : Scanner) (content : List Char)
    (path : FsPath) (e : RequirementsTxtError)
    (h : parse_loop recur fuel d1 s content path = some (.error e)) :
    parse_loop recur fuel d2 s content path = some (.error e) := by
  induction fuel generalizing d1 d2 s with
  | zero => simp [parse_loop] at h
  | succ fuel ih =>
    rw [parse_loop] at h ⊢
    by_cases hd : s.done = true
    · rw [if_pos hd] at h
      simp at h
    · rw [if_neg hd] at h ⊢
      rw [parse_entry_shift recur d1 s content path] at h
      rw [parse_entry_shift recur d2 s content path]
      rcases hE : parse_entry recur RequirementsTxt.default s content path with - | er
      · rw [hE] at h
        simp [shiftResult] at h
      · rcases er with e' | ⟨δ, s'⟩
        · rw [hE] at h
          simp only [shiftResult, Option.map, Except.map] at h ⊢
          simpa using h
        · rw [hE] at h
          simp only [shiftResult, Option.map, Except.map] at h ⊢
          exact ih _ _ _ h

/-- Fixture for the C4 witness: the first line parses, the second fails in
the specifier parser. -/
def contentC4 : List Char :=
  "numpy==1\nbad[ö]==1\n".data

theorem parse_error_independent_of_accumulator_witness :
    parse_loop (fun _ => none) 3 RequirementsTxt.default ⟨contentC4, 0⟩ contentC4
      ["requirements.txt"] =
      some (.error (.Pep508 ⟨"bad[ö]==1".data⟩ ["requirements.txt"] 9 18)) := by
  have h : parse_loop (fun _ => none) 3
      ⟨[⟨⟨"seen==1".data⟩, [], false⟩], [⟨"con==2".data⟩]⟩ ⟨contentC4, 0⟩ contentC4
      ["requirements.txt"] =
      some (.error (.Pep508 ⟨"bad[ö]==1".data⟩ ["requirements.txt"] 9 18)) := by
    simp +decide [contentC4, parse_loop, parse_entry, parse_requirement_and_hashes,
      parse_value, scanReqBody,
      Scanner.eatWhitespace, Scanner.eatIfStr, Scanner.eatIfChar, Scanner.eatIfPred,
      Scanner.eatUntilPred, Scanner.eat, Scanner.eatWrappableWhitespace, Scanner.done,
      Scanner.peek, Scanner.after, Scanner.advance, wrapWsLen, hashRepLen, isDashDash,
      nlOrHash, trimWs, trim_end, Requirement.from_str]
  exact parse_error_independent_of_accumulator (fun _ => none) 3 _ _ _ _ _ _ h

theorem parse_value_error_shape {s : Scanner} {u : Char → Bool} {f : FsPath}
    {err : RequirementsTxtError} (h : parse_value s u f = .error err) :
    ∃ m fl loc, err = .Parser m fl loc := by
  simp only [parse_value, Scanner.eatIfChar, Scanner.eatIfPred] at h
  by_cases h1 : s.peek = some '='
  · rw [if_pos h1] at h
    simp at h
  · rw [if_neg h1] at h
    dsimp only at h
    rcases hp : s.peek with - | c <;> rw [hp] at h <;> dsimp only at h
    · exact ⟨_, _, _, by simpa using h.symm⟩
    · by_cases h2 : isRustWhitespace c
      · rw [if_pos h2] at h
        simp at h
      · rw [if_neg h2] at h
        exact ⟨_, _, _, by simpa using h.symm⟩

theorem parse_hashes_loop_error_shape :
    ∀ (hashes : List (List Char)) (s : Scanner) (f : FsPath) (err : RequirementsTxtError),
      parse_hashes_loop hashes s f = .error err →
      ∃ m fl loc, err = .Parser m fl loc := by
  intro hashes s f
  induction hashes, s, f using parse_hashes_loop.induct with
  | case1 hashes s f s1 n hn =>
    intro err h
    rw [parse_hashes_loop] at h
    split at h
    · simp at h
    · contradiction
  | case2 hashes s f s1 n hn e hpv =>
    intro err h
    rw [parse_hashes_loop] at h
    split at h
    · contradiction
    · split at h
      · rename_i e2 heq
        simp only [Except.error.injEq] at h
        subst h
        exact parse_value_error_shape heq
      · rename_i hash2 s32 heq
        rw [hpv] at heq
        simp at heq
  | case3 hashes s f s1 n hn hash s3 hpv ih =>
    intro err h
    rw [parse_hashes_loop] at h
    split at h
    · contradiction
    · split at h
      · rename_i e2 heq
        rw [hpv] at heq
        simp at heq
      · rename_i hash2 s32 heq
        rw [hpv] at heq
        simp only [Except.ok.injEq, Prod.mk.injEq] at heq
        obtain ⟨h1, h2⟩ := heq
        subst h1
        subst h2
        exact ih err h

theorem parse_hashes_error_shape {s : Scanner} {f : FsPath}
    {err : RequirementsTxtError} (h : parse_hashes s f = .error err) :
    ∃ m fl loc, err = .Parser m fl loc := by
  unfold parse_hashes at h
  by_cases h0 : hashRepLen s.after = 0
  · rw [if_pos h0] at h
    simp only [Except.error.injEq] at h
    exact ⟨_, _, _, h.symm⟩
  · rw [if_neg h0] at h
    rcases hpv : parse_value (s.advance (hashRepLen s.after)) isRustWhitespace f
      with e | ⟨hash, s2⟩ <;> rw [hpv] at h
    · simp only [Except.error.injEq] at h
      subst h
      exact parse_value_error_shape hpv
    · exact parse_hashes_loop_error_shape _ _ _ _ h

/-- C5: every `Pep508` error coming out of `parse_requirement_and_hashes`
carries the parsed file's path and the start/end offsets of exactly the
captured requirement substring: start is the cursor where the requirement
began, end is where the body scan stopped, and the external specifier parser
rejected precisely `content[start..end]` with the wrapped source error. -/
theorem pep508_error_brackets_substring
    (s : Scanner) (content : List Char) (path f : FsPath) (src : Pep508Error)
    (a b : Nat)
    (h : parse_requirement_and_hashes s content path = .error (.Pep508 src f a b)) :
    f = path ∧ a = s.pos ∧ b = (scanReqBody s.after s.pos).1 ∧
      Requirement.from_str ((content.drop a).take (b - a)) = .error src := by
  unfold parse_requirement_and_hashes at h
  rcases hscan : scanReqBody s.after s.pos with ⟨stop, has_hashes, posAfter⟩
  rw [hscan] at h
  dsimp only at h
  rcases hfs : Requirement.from_str ((content.drop s.pos).take (stop - s.pos))
    with e | req <;> rw [hfs] at h
  · simp only [Except.error.injEq, RequirementsTxtError.Pep508.injEq] at h
    obtain ⟨rfl, rfl, rfl, rfl⟩ := h
    exact ⟨rfl, rfl, rfl, hfs⟩
  · cases has_hashes with
    | false => simp at h
    | true =>
      simp only [if_true] at h
      rcases hph : parse_hashes ⟨s.input, posAfter⟩ path with e | ok <;> rw [hph] at h
      · simp only [Except.error.injEq] at h
        subst h
        obtain ⟨m, fl, loc, hcontra⟩ := parse_hashes_error_shape hph
        simp at hcontra
      · rcases ok with ⟨hashes, s2⟩
        simp at h

theorem pep508_error_brackets_substring_witness :
    (["requirements.txt"] : FsPath) = ["requirements.txt"] ∧
    (0 : Nat) = (⟨"numpy[ö]==1.29\n".data, 0⟩ : Scanner).pos ∧
    (14 : Nat) = (scanReqBody (⟨"numpy[ö]==1.29\n".data, 0⟩ : Scanner).after 0).1 ∧
    Requirement.from_str (("numpy[ö]==1.29\n".data.drop 0).take (14 - 0)) =
      .error ⟨"numpy[ö]==1.29".data⟩ := by
  have h : parse_requirement_and_hashes ⟨"numpy[ö]==1.29\n".data, 0⟩
      "numpy[ö]==1.29\n".data ["requirements.txt"] =
      .error (.Pep508 ⟨"numpy[ö]==1.29".data⟩ ["requirements.txt"] 0 14) := by
    simp +decide [parse_requirement_and_hashes, scanReqBody, Scanner.after, Scanner.advance,
      wrapWsLen, isDashDash, trimWs, Requirement.from_str]
  exact pep508_error_brackets_substring ⟨"numpy[ö]==1.29\n".data, 0⟩
    "numpy[ö]==1.29\n".data ["requirements.txt"] ["requirements.txt"]
    ⟨"numpy[ö]==1.29".data⟩ 0 14 h

namespace InstallWheelRs

/-- C9: `install_wheel_in_venv` canonicalizes the environment path (failing
with the canonicalization error if that fails), builds the venv-style
`InstallLocation` from the canonical base and the `(major, minor)` version,
acquires that location's lock before anything else runs (failing with the
lock error if that fails), and then runs the installer on the locked
directory with the relocation-shebang mode disabled (`false`) and the
monotrail-only arguments empty, returning the installer's tag-or-error
result. -/
theorem install_wheel_in_venv_spec (w : InstallWorld) (wheel venv interpreter : FsPath)
    (major minor : Nat) :
    (∀ e, w.canonicalize venv = .error e →
      install_wheel_in_venv w wheel venv interpreter major minor = .error e) ∧
    (∀ base, w.canonicalize venv = .ok base →
      ((∀ e, w.acquire_lock (.Venv base (major, minor)) = .error e →
          install_wheel_in_venv w wheel venv interpreter major minor = .error e) ∧
       (∀ locked_dir, w.acquire_lock (.Venv base (major, minor)) = .ok locked_dir →
          install_wheel_in_venv w wheel venv interpreter major minor =
            w.install_wheel locked_dir wheel false [] "" interpreter))) := by
  refine ⟨fun e he => ?_, fun base hb => ⟨fun e he => ?_, fun ld hl => ?_⟩⟩
  · simp [install_wheel_in_venv, he]
  · simp [install_wheel_in_venv, hb, he]
  · simp [install_wheel_in_venv, hb, hl]

/-- A concrete world for the C9 witness: every collaborator succeeds. -/
def worldC9 : InstallWorld where
  canonicalize := fun _ => .ok ["canon", "env"]
  acquire_lock := fun loc => .ok ⟨loc⟩
  install_wheel := fun _ _ _ _ _ _ => .ok "cp38-cp38-manylinux_2_17_x86_64"

theorem install_wheel_in_venv_spec_witness :
    install_wheel_in_venv worldC9 ["wheels", "numpy.whl"] ["venv"] ["venv", "bin", "python"]
      3 8 = .ok "cp38-cp38-manylinux_2_17_x86_64" := by
  have h := (install_wheel_in_venv_spec worldC9 ["wheels", "numpy.whl"] ["venv"]
    ["venv", "bin", "python"] 3 8).2 ["canon", "env"] rfl
  have h2 := h.2 ⟨.Venv ["canon", "env"] (3, 8)⟩ rfl
  simpa [worldC9] using h2

end InstallWheelRs

/-- Fixture for C10: a line starting with an option token the grammar does
not know (`--find-links`), which `parse_entry` matches with no branch. -/
def fsC10 : Fs :=
  [(["requirements.txt"], "--find-links foo\n".data)]

theorem parse_loop_find_links_none (data : RequirementsTxt)
    (recur : FsPath → Option (Except RequirementsTxtError RequirementsTxt)) :
    ∀ fuel, parse_loop recur fuel data ⟨"--find-links foo\n".data, 0⟩
      "--find-links foo\n".data ["requirements.txt"] = none := by
  intro fuel
  induction fuel with
  | zero => rfl
  | succ fuel ih =>
    rw [parse_loop]
    have hentry : parse_entry recur data ⟨"--find-links foo\n".data, 0⟩
        "--find-links foo\n".data ["requirements.txt"] =
        some (.ok (data, ⟨"--find-links foo\n".data, 0⟩)) := by
      simp +decide [parse_entry, Scanner.eatWhitespace, Scanner.eatIfStr,
        Scanner.peek, Scanner.after, Scanner.advance]
    rw [hentry]
    simpa +decide [Scanner.done, Scanner.after] using ih

/-- C10 refuted (code bug): on a file whose line starts with an unrecognized
token such as `--find-links`, `parse_entry` consumes nothing — it matches
none of `#`, `-r`, `-c`, `-e`, and the first character is not ASCII
alphanumeric, so every branch falls through and the scanner is returned
unchanged — and the `while !s.done()` loop of `RequirementsTxt::parse` never
terminates: here, the parse returns `none` (fuel exhausted) for every fuel
bound, against the claim that every iteration strictly advances the
scanner. -/
theorem parse_nonadvancing_line_diverges :
    ∀ fuel, RequirementsTxt.parse fuel fsC10 ["requirements.txt"] = none := by
  intro fuel
  cases fuel with
  | zero => rfl
  | succ fuel =>
    rw [RequirementsTxt.parse.eq_def]
    dsimp only
    have hread : read_to_string fsC10 ["requirements.txt"] = .ok "--find-links foo\n".data := by
      simp +decide [read_to_string, fsC10, List.lookup]
    rw [hread]
    exact parse_loop_find_links_none RequirementsTxt.default _ fuel

/-! ## C3: characterizing where the requirement-body scan stops -/


/-! ## C3: characterizing where the requirement-body scan stops -/

theorem wrapWsLen_white {c : Char} (h : isRustWhitespace c = true) (rest : List Char) :
    wrapWsLen (c :: rest) = 1 + wrapWsLen rest := by
  conv_lhs => rw [wrapWsLen.eq_def]
  dsimp only
  rw [h]
  simp

theorem wrapWsLen_bs (rest2 : List Char) :
    wrapWsLen ('\\' :: '\n' :: rest2) = 2 + wrapWsLen rest2 := by
  conv_lhs => rw [wrapWsLen.eq_def]
  dsimp only
  rw [show isRustWhitespace '\\' = false from by decide]
  simp

theorem wrapWsLen_stop_cons {c : Char} {rest : List Char}
    (h1 : isRustWhitespace c = false) (h2 : ¬(c = '\\' ∧ rest.head? = some '\n')) :
    wrapWsLen (c :: rest) = 0 := by
  conv_lhs => rw [wrapWsLen.eq_def]
  dsimp only
  rw [h1]
  simp only [Bool.false_eq_true, if_false]
  by_cases hb : c = '\\'
  · rw [if_pos hb]
    split
    · rename_i rest2 heq
      exact absurd ⟨hb, rfl⟩ h2
    · rfl
  · rw [if_neg hb]

theorem wrapWsLen_le (l : List Char) : wrapWsLen l ≤ l.length := by
  induction l with
  | nil => simp [wrapWsLen]
  | cons c rest ih =>
    by_cases hw : isRustWhitespace c = true
    · rw [wrapWsLen_white hw]
      simp only [List.length_cons]
      omega
    · by_cases hbs : c = '\\' ∧ rest.head? = some '\n'
      · obtain ⟨hb, hh⟩ := hbs
        subst hb
        cases rest with
        | nil => simp at hh
        | cons c2 r2 =>
          have hc2 : c2 = '\n' := by simpa using hh
          subst hc2
          rw [wrapWsLen_bs]
          rw [wrapWsLen_white (by decide)] at ih
          simp only [List.length_cons] at ih ⊢
          omega
      · rw [wrapWsLen_stop_cons (by simpa using hw) hbs]
        simp

theorem wrapWsLen_ne_zero_head {c : Char} {rest : List Char}
    (h : wrapWsLen (c :: rest) ≠ 0) : isRustWhitespace c = true ∨ c = '\\' := by
  by_cases hw : isRustWhitespace c = true
  · exact Or.inl hw
  · by_cases hbs : c = '\\' ∧ rest.head? = some '\n'
    · exact Or.inr hbs.1
    · exact absurd (wrapWsLen_stop_cons (by simpa using hw) hbs) h

theorem wrapWsLen_run_chars (l : List Char) :
    ∀ k c2, k < wrapWsLen l → l.get? k = some c2 →
      isRustWhitespace c2 = true ∨ c2 = '\\' := by
  induction l with
  | nil => intro k c2 hk _; simp [wrapWsLen] at hk
  | cons c rest ih =>
    intro k c2 hk hget
    by_cases hw : isRustWhitespace c = true
    · cases k with
      | zero =>
        have : c2 = c := by simpa using hget.symm
        exact Or.inl (this ▸ hw)
      | succ k =>
        rw [wrapWsLen_white hw] at hk
        exact ih k c2 (by omega) (by simpa using hget)
    · by_cases hbs : c = '\\' ∧ rest.head? = some '\n'
      · obtain ⟨hb, hh⟩ := hbs
        subst hb
        cases rest with
        | nil => simp at hh
        | cons c2h r2 =>
          have hc2 : c2h = '\n' := by simpa using hh
          subst hc2
          cases k with
          | zero =>
            have : c2 = '\\' := by simpa using hget.symm
            exact Or.inr this
          | succ k =>
            have hk2 : k < wrapWsLen ('\n' :: r2) := by
              rw [wrapWsLen_white (by decide)]
              rw [wrapWsLen_bs] at hk
              omega
            exact ih k c2 hk2 (by simpa using hget)
      · rw [wrapWsLen_stop_cons (by simpa using hw) hbs] at hk
        omega

theorem wrapWsLen_drop (l : List Char) :
    ∀ k, k ≤ wrapWsLen l → wrapWsLen (l.drop k) = wrapWsLen l - k := by
  induction l with
  | nil =>
    intro k hk
    simp [List.drop_nil, wrapWsLen]
  | cons c rest ih =>
    intro k hk
    cases k with
    | zero => simp
    | succ k =>
      by_cases hw : isRustWhitespace c = true
      · rw [wrapWsLen_white hw] at hk ⊢
        rw [List.drop_succ_cons]
        rw [ih k (by omega)]
        omega
      · by_cases hbs : c = '\\' ∧ rest.head? = some '\n'
        · obtain ⟨hb, hh⟩ := hbs
          subst hb
          cases rest with
          | nil => simp at hh
          | cons c2h r2 =>
            have hc2 : c2h = '\n' := by simpa using hh
            subst hc2
            rw [wrapWsLen_bs] at hk ⊢
            rw [List.drop_succ_cons]
            have h2 : wrapWsLen ('\n' :: r2) = 1 + wrapWsLen r2 :=
              wrapWsLen_white (by decide) r2
            rw [ih k (by rw [h2]; omega), h2]
            omega
        · rw [wrapWsLen_stop_cons (by simpa using hw) hbs] at hk
          omega

theorem wrapWsLen_stop_char (l : List Char) :
    ∀ c2 t, l.drop (wrapWsLen l) = c2 :: t →
      isRustWhitespace c2 = false ∧ ¬(c2 = '\\' ∧ t.head? = some '\n') := by
  induction l with
  | nil => intro c2 t h; simp [wrapWsLen] at h
  | cons c rest ih =>
    intro c2 t h
    by_cases hw : isRustWhitespace c = true
    · rw [wrapWsLen_white hw, Nat.add_comm, List.drop_succ_cons] at h
      exact ih c2 t h
    · by_cases hbs : c = '\\' ∧ rest.head? = some '\n'
      · obtain ⟨hb, hh⟩ := hbs
        subst hb
        cases rest with
        | nil => simp at hh
        | cons c2h r2 =>
          have hc2 : c2h = '\n' := by simpa using hh
          subst hc2
          rw [wrapWsLen_bs, Nat.add_comm,
            show wrapWsLen r2 + 2 = (wrapWsLen r2 + 1) + 1 from rfl,
            List.drop_succ_cons, List.drop_succ_cons] at h
          apply ih
          rw [wrapWsLen_white (by decide), Nat.add_comm, List.drop_succ_cons]
          exact h
      · rw [wrapWsLen_stop_cons (by simpa using hw) hbs, List.drop_zero] at h
        injection h with h1 h2
        subst h1
        subst h2
        exact ⟨by simpa using hw, hbs⟩

theorem wrapWsLen_idem (l : List Char) : wrapWsLen (l.drop (wrapWsLen l)) = 0 := by
  cases hd : l.drop (wrapWsLen l) with
  | nil => simp [wrapWsLen]
  | cons c2 t =>
    obtain ⟨h1, h2⟩ := wrapWsLen_stop_char l c2 t hd
    exact wrapWsLen_stop_cons h1 h2

/-- Following the claim's words: position `i` of `content` is a terminator of
a requirement body when it is end-of-file, an end-of-line, or the start of a
(nonempty, continuation-aware) whitespace run directly followed by a token
starting with `--`. -/
def claimedTerminator (content : List Char) (i : Nat) : Bool :=
  (content.drop i).isEmpty ||
  ((content.drop i).head? == some '\n') ||
  (wrapWsLen (content.drop i) != 0 &&
    isDashDash (content.drop (i + wrapWsLen (content.drop i))))

/-- The condition under which the body-scan loop in fact breaks at position
`i` (amended spec): end-of-file, a newline at `i`, or a nonempty
continuation-aware whitespace run at `i` followed by `--` or end-of-file. -/
def looseBreakAt (content : List Char) (i : Nat) : Bool :=
  (content.drop i).isEmpty ||
  ((content.drop i).head? == some '\n') ||
  (wrapWsLen (content.drop i) != 0 &&
    (isDashDash (content.drop (i + wrapWsLen (content.drop i))) ||
     (content.drop (i + wrapWsLen (content.drop i))).isEmpty))

/-- Is the character directly before position `i` a whitespace character or
a backslash?  (`false` at position `0` and past the end.) -/
def precededByWsOrBs (content : List Char) : Nat → Bool
  | 0 => false
  | j + 1 =>
    match content.get? j with
    | some c => isRustWhitespace c || c == '\\'
    | none => false

/-- As `looseBreakAt`, but a newline counts only when it is not directly
preceded by a whitespace character or a backslash (a newline strictly inside
a whitespace run being skipped is ordinary whitespace to the scan). -/
def strictBreakAt (content : List Char) (i : Nat) : Bool :=
  (content.drop i).isEmpty ||
  (((content.drop i).head? == some '\n') && !(precededByWsOrBs content i)) ||
  (wrapWsLen (content.drop i) != 0 &&
    (isDashDash (content.drop (i + wrapWsLen (content.drop i))) ||
     (content.drop (i + wrapWsLen (content.drop i))).isEmpty))

theorem strictBreakAt_loose {content : List Char} {i : Nat}
    (h : strictBreakAt content i = true) : looseBreakAt content i = true := by
  simp only [strictBreakAt, looseBreakAt, Bool.or_eq_true] at h ⊢
  rcases h with (h | h) | h
  · exact Or.inl (Or.inl h)
  · simp only [Bool.and_eq_true] at h
    exact Or.inl (Or.inr h.1)
  · exact Or.inr h

/-- C3 counterexample: in `a \nb` the code's body scan runs to the end of
input (offset 4, capturing `a \nb` across the unescaped newline), although
the first terminator in the claim's sense sits at offset 2 (the newline) and
no claimed terminator precedes it; so the captured substring does not extend
"exactly until the first end-of-line, end-of-file, or whitespace followed by
`--`": the newline at offset 2 is skipped because the whitespace run
starting at offset 1 swallows it. -/
theorem req_body_terminator_counterexample :
    (scanReqBody "a \nb".data 0).1 = 4 ∧
    claimedTerminator "a \nb".data 2 = true ∧
    claimedTerminator "a \nb".data 0 = false ∧
    claimedTerminator "a \nb".data 1 = false := by
  refine ⟨?_, by decide, by decide, by decide⟩
  simp +decide [scanReqBody, wrapWsLen, isDashDash]

theorem drop_at (content : List Char) (p a : Nat) :
    (content.drop p).drop a = content.drop (p + a) :=
  List.drop_drop a p content

theorem get?_at (content : List Char) (p k : Nat) :
    (content.drop p).get? k = content.get? (p + k) :=
  List.get?_drop content p k

/-- Between a scan step at `p` (whose wrappable-whitespace run has length
`w` and is followed by the non-run character `d`, with no `--` break) and
the next scan step at `p + w + 1`, no position is a strict terminator: the
run's characters are whitespace or backslash, so a newline there has a
whitespace-or-backslash predecessor, the run's suffixes still reach the same
non-`--`, non-end position, and the stop character `d` itself is neither
newline nor whitespace. -/
theorem strict_false_in_run (content : List Char) (p : Nat) (c : Char) (rest : List Char)
    (hrest : content.drop p = c :: rest)
    (hnodash : ¬(wrapWsLen (c :: rest) ≠ 0 ∧
      isDashDash ((c :: rest).drop (wrapWsLen (c :: rest))) = true))
    (d : Char) (rest2 : List Char)
    (hdrop2 : (c :: rest).drop (wrapWsLen (c :: rest)) = d :: rest2) :
    ∀ j, p < j → j ≤ p + wrapWsLen (c :: rest) → strictBreakAt content j = false := by
  intro j hj1 hj2
  have hw : wrapWsLen (c :: rest) = wrapWsLen (c :: rest) := rfl
  set w := wrapWsLen (c :: rest) with hwdef
  set k := j - p with hkdef
  have hjpk : j = p + k := by omega
  have hk1 : 1 ≤ k := by omega
  have hkw : k ≤ w := by omega
  have hwle : w ≤ (c :: rest).length := wrapWsLen_le (c :: rest)
  have hdj : content.drop j = (c :: rest).drop k := by
    rw [hjpk, ← List.drop_drop k p content, hrest]
  have hdpw : content.drop (p + w) = d :: rest2 := by
    rw [← List.drop_drop w p content, hrest, hdrop2]
  rcases Nat.lt_or_ge k w with hklt | hkge
  · -- strictly inside the run
    have hj1' : j - 1 + 1 = j := by omega
    have hpred : precededByWsOrBs content j = true := by
      rw [← hj1']
      rw [precededByWsOrBs]
      rcases Nat.eq_or_lt_of_le hk1 with h1 | h1
      · have hjp : j - 1 = p := by omega
        have hc : content.get? (j - 1) = some c := by
          rw [hjp]
          have hh := congrArg List.head? hrest
          rw [List.head?_drop] at hh
          rw [List.get?_eq_getElem?]
          simpa using hh
        rw [hc]
        have hcw : isRustWhitespace c = true ∨ c = '\\' :=
          @wrapWsLen_ne_zero_head c rest (by omega)
        rcases hcw with hcw | hcw <;> simp [hcw]
      · have hkk : k - 1 < w := by omega
        have hget : (c :: rest).get? (k - 1) = content.get? (j - 1) := by
          have hgd := List.get?_drop content p (k - 1)
          rw [hrest] at hgd
          rw [hgd]
          congr 1
          omega
        cases hch : (c :: rest).get? (k - 1) with
        | none =>
          rw [List.get?_eq_none] at hch
          omega
        | some ch =>
          have hchr := wrapWsLen_run_chars (c :: rest) (k - 1) ch hkk hch
          rw [hget] at hch
          rw [hch]
          rcases hchr with h | h <;> simp [h]
    have hne : content.drop j ≠ [] := by
      rw [hdj]
      intro hcontra
      have hlen := congrArg List.length hcontra
      rw [List.length_drop] at hlen
      simp only [List.length_nil] at hlen
      omega
    have hwj : wrapWsLen (content.drop j) = w - k := by
      rw [hdj]
      exact wrapWsLen_drop (c :: rest) k hkw
    have hjwk : j + (w - k) = p + w := by omega
    have hdash_f : isDashDash (d :: rest2) = false := by
      rcases Bool.eq_false_or_eq_true (isDashDash (d :: rest2)) with h | h
      · exact absurd ⟨by omega, by rw [hdrop2]; exact h⟩ hnodash
      · exact h
    unfold strictBreakAt
    rw [hwj, hjwk, hdpw, hpred, hdash_f]
    simp [List.isEmpty_iff, hne]
  · -- the stop character position j = p + w
    have hkw2 : k = w := by omega
    have hdj2 : content.drop j = d :: rest2 := by rw [hdj, hkw2, hdrop2]
    have hstop := wrapWsLen_stop_char (c :: rest) d rest2 hdrop2
    have hwz : wrapWsLen (d :: rest2) = 0 := wrapWsLen_stop_cons hstop.1 hstop.2
    have hdn : ¬(d = '\n') := by
      intro hcontra
      rw [hcontra] at hstop
      have : isRustWhitespace '\n' = false := hstop.1
      simp [isRustWhitespace] at this
    unfold strictBreakAt
    rw [hdj2, hwz]
    simp [hdn]

/-- At a scan step that continues (no newline at `p`, no `--` after the run,
not at end of input), the loop's break condition does not hold at `p`. -/
theorem loose_false_at_step (content : List Char) (p : Nat) (c : Char) (rest : List Char)
    (hrest : content.drop p = c :: rest)
    (hc : ¬(c = '\n'))
    (hnodash : ¬(wrapWsLen (c :: rest) ≠ 0 ∧
      isDashDash ((c :: rest).drop (wrapWsLen (c :: rest))) = true))
    (hnoEof : (c :: rest).drop (wrapWsLen (c :: rest)) ≠ []) :
    looseBreakAt content p = false := by
  unfold looseBreakAt
  rw [hrest]
  have hdpw : content.drop (p + wrapWsLen (c :: rest)) =
      (c :: rest).drop (wrapWsLen (c :: rest)) := by
    rw [← List.drop_drop (wrapWsLen (c :: rest)) p content, hrest]
  rw [hdpw]
  by_cases hw0 : wrapWsLen (c :: rest) = 0
  · simp [hw0, hc]
  · have hdashf : isDashDash ((c :: rest).drop (wrapWsLen (c :: rest))) = false := by
      rcases Bool.eq_false_or_eq_true
          (isDashDash ((c :: rest).drop (wrapWsLen (c :: rest)))) with h | h
      · exact absurd ⟨hw0, h⟩ hnodash
      · exact h
    simp [hc, hdashf, List.isEmpty_iff, hnoEof]

/-- When the scan breaks at the next visited position `p + w + 1`, that
break is also a strict one: its predecessor is the non-whitespace stop
character of the run at `p`, which cannot be a backslash directly before a
newline. -/
theorem strict_at_next (content : List Char) (p : Nat) (c : Char) (rest : List Char)
    (hrest : content.drop p = c :: rest)
    (d : Char) (rest2 : List Char)
    (hdrop2 : (c :: rest).drop (wrapWsLen (c :: rest)) = d :: rest2)
    (hloose : looseBreakAt content (p + wrapWsLen (c :: rest) + 1) = true) :
    strictBreakAt content (p + wrapWsLen (c :: rest) + 1) = true := by
  have hstop := wrapWsLen_stop_char (c :: rest) d rest2 hdrop2
  have hdpw : content.drop (p + wrapWsLen (c :: rest)) = d :: rest2 := by
    rw [← List.drop_drop (wrapWsLen (c :: rest)) p content, hrest, hdrop2]
  have hgetpw : content.get? (p + wrapWsLen (c :: rest)) = some d := by
    have hh := congrArg List.head? hdpw
    rw [List.head?_drop] at hh
    rw [List.get?_eq_getElem?]
    simpa using hh
  have hr2 : content.drop (p + wrapWsLen (c :: rest) + 1) = rest2 := by
    have hh := congrArg List.tail hdpw
    rw [List.tail_drop] at hh
    simpa using hh
  simp only [looseBreakAt, Bool.or_eq_true] at hloose
  rcases hloose with (h | h) | h
  · simp only [strictBreakAt, Bool.or_eq_true]
    exact Or.inl (Or.inl h)
  · have hdbs : ¬(d = '\\') := by
      intro hdd
      refine hstop.2 ⟨hdd, ?_⟩
      rw [hr2] at h
      simpa using h
    have hpred : precededByWsOrBs content (p + wrapWsLen (c :: rest) + 1) = false := by
      rw [precededByWsOrBs, hgetpw]
      simp [hstop.1, hdbs]
    simp only [strictBreakAt, Bool.or_eq_true]
    refine Or.inl (Or.inr ?_)
    rw [hpred]
    simpa using h
  · simp only [strictBreakAt, Bool.or_eq_true]
    exact Or.inr h

/-- Main characterization of the requirement-body scan, by induction on the
remaining input: starting a scan at `p`, the scan stops at the first
position that satisfies the (strict) break condition, never stops before
one, and its own stop position satisfies the loop's break condition. -/
theorem scanReqBody_spec (n : Nat) :
    ∀ (content : List Char) (p e : Nat) (hh : Bool) (q : Nat),
      content.length - p ≤ n →
      scanReqBody (content.drop p) p = (e, hh, q) →
      p ≤ e ∧ looseBreakAt content e = true ∧
      (p < e → strictBreakAt content e = true) ∧
      (p < e → looseBreakAt content p = false) ∧
      (∀ j, p < j → j < e → strictBreakAt content j = false) := by
  induction n with
  | zero =>
    intro content p e hh q hn hscan
    have hdrop : content.drop p = [] := List.drop_eq_nil_of_le (by omega)
    rw [hdrop] at hscan
    rw [scanReqBody.eq_def] at hscan
    dsimp only at hscan
    simp only [Prod.mk.injEq] at hscan
    obtain ⟨rfl, rfl, rfl⟩ := hscan
    refine ⟨Nat.le_refl _, ?_, ?_, ?_, ?_⟩
    · simp [looseBreakAt, hdrop]
    · intro hlt; omega
    · intro hlt; omega
    · intro j h1 h2; omega
  | succ n ih =>
    intro content p e hh q hn hscan
    cases hrest : content.drop p with
    | nil =>
      rw [hrest] at hscan
      rw [scanReqBody.eq_def] at hscan
      dsimp only at hscan
      simp only [Prod.mk.injEq] at hscan
      obtain ⟨rfl, rfl, rfl⟩ := hscan
      refine ⟨Nat.le_refl _, ?_, ?_, ?_, ?_⟩
      · simp [looseBreakAt, hrest]
      · intro hlt; omega
      · intro hlt; omega
      · intro j h1 h2; omega
    | cons c rest =>
      have hplen : content.length - p = rest.length + 1 := by
        have hl := congrArg List.length hrest
        rw [List.length_drop] at hl
        simpa using hl
      rw [hrest] at hscan
      rw [scanReqBody.eq_def] at hscan
      dsimp only at hscan
      split at hscan
      · -- newline at p
        rename_i hc
        simp only [Prod.mk.injEq] at hscan
        obtain ⟨rfl, rfl, rfl⟩ := hscan
        refine ⟨Nat.le_refl _, ?_, ?_, ?_, ?_⟩
        · simp [looseBreakAt, hrest, hc]
        · intro hlt; omega
        · intro hlt; omega
        · intro j h1 h2; omega
      · rename_i hc
        have hdpw : content.drop (p + wrapWsLen (c :: rest)) =
            (c :: rest).drop (wrapWsLen (c :: rest)) := by
          rw [← List.drop_drop (wrapWsLen (c :: rest)) p content, hrest]
        split at hscan
        · -- whitespace run followed by `--`
          rename_i hdash
          simp only [Bool.and_eq_true, decide_eq_true_eq] at hdash
          simp only [Prod.mk.injEq] at hscan
          obtain ⟨rfl, rfl, rfl⟩ := hscan
          refine ⟨Nat.le_refl _, ?_, ?_, ?_, ?_⟩
          · unfold looseBreakAt
            rw [hrest, hdpw]
            simp [bne_iff_ne, hdash.1, hdash.2]
          · intro hlt; omega
          · intro hlt; omega
          · intro j h1 h2; omega
        · rename_i hdash
          have hnodash : ¬(wrapWsLen (c :: rest) ≠ 0 ∧
              isDashDash ((c :: rest).drop (wrapWsLen (c :: rest))) = true) := by
            intro ⟨a, b⟩
            exact hdash (by simp [a, b])
          split at hscan
          · -- end of input after the whitespace run
            rename_i heq
            have hw0 : wrapWsLen (c :: rest) ≠ 0 := by
              intro hz
              rw [hz] at heq
              simp at heq
            simp only [Prod.mk.injEq] at hscan
            obtain ⟨rfl, rfl, rfl⟩ := hscan
            refine ⟨Nat.le_refl _, ?_, ?_, ?_, ?_⟩
            · unfold looseBreakAt
              rw [hrest, hdpw, heq]
              simp [bne_iff_ne, hw0]
            · intro hlt; omega
            · intro hlt; omega
            · intro j h1 h2; omega
          · -- the scan continues past the run and one more character
            rename_i d rest2 heq
            have hdpw2 : content.drop (p + wrapWsLen (c :: rest)) = d :: rest2 := by
              rw [hdpw, heq]
            have hr2 : content.drop (p + wrapWsLen (c :: rest) + 1) = rest2 := by
              have hh2 := congrArg List.tail hdpw2
              rw [List.tail_drop] at hh2
              simpa using hh2
            rw [← hr2] at hscan
            have hwle : wrapWsLen (c :: rest) ≤ (c :: rest).length :=
              wrapWsLen_le (c :: rest)
            have hmeas : content.length - (p + wrapWsLen (c :: rest) + 1) ≤ n := by
              omega
            obtain ⟨ih1, ih2, ih3, ih4, ih5⟩ :=
              ih content (p + wrapWsLen (c :: rest) + 1) e hh q hmeas hscan
            refine ⟨by omega, ih2, ?_, ?_, ?_⟩
            · intro hpe
              rcases Nat.lt_or_ge (p + wrapWsLen (c :: rest) + 1) e with hlt | hge
              · exact ih3 hlt
              · have he : e = p + wrapWsLen (c :: rest) + 1 := by omega
                subst he
                exact strict_at_next content p c rest hrest d rest2 heq ih2
            · intro hpe
              exact loose_false_at_step content p c rest hrest hc hnodash (by rw [heq]; simp)
            · intro j hj1 hj2
              rcases Nat.lt_trichotomy j (p + wrapWsLen (c :: rest) + 1) with hj | hj | hj
              · exact strict_false_in_run content p c rest hrest hnodash d rest2 heq j hj1
                  (by omega)
              · subst hj
                have hloosef := ih4 (by omega)
                rcases Bool.eq_false_or_eq_true
                    (strictBreakAt content (p + wrapWsLen (c :: rest) + 1)) with hs | hs
                · exact absurd (strictBreakAt_loose hs) (by simp [hloosef])
                · exact hs
              · exact ih5 j (by omega) hj2

/-- C3 amended: the captured requirement-specifier substring extends exactly
until the first strict terminator at or after the scan start: the scan's
stop position satisfies the loop's break condition (end-of-file, newline, or
nonempty continuation-aware whitespace run followed by `--` or end-of-file);
if it lies beyond the start it is a strict terminator (its newline, if any,
is not preceded by whitespace-or-backslash); the start position itself is
not a break position when the scan moved at all; and no position strictly
between start and stop is a strict terminator — in particular backslash
newlines, and any newline inside a whitespace run being skipped, act as
ordinary whitespace, and may repeat. -/
theorem req_body_terminator_characterization (content : List Char) (p e : Nat)
    (hh : Bool) (q : Nat)
    (h : scanReqBody (content.drop p) p = (e, hh, q)) :
    p ≤ e ∧ looseBreakAt content e = true ∧
    (p < e → strictBreakAt content e = true) ∧
    (p < e → looseBreakAt content p = false) ∧
    (∀ j, p < j → j < e → strictBreakAt content j = false) :=
  scanReqBody_spec content.length content p e hh q (Nat.sub_le _ _) h

theorem req_body_terminator_characterization_witness :
    (0 : Nat) ≤ 11 ∧ looseBreakAt "numpy==1.26 --hash=x\n".data 11 = true ∧
    ((0 : Nat) < 11 → strictBreakAt "numpy==1.26 --hash=x\n".data 11 = true) ∧
    ((0 : Nat) < 11 → looseBreakAt "numpy==1.26 --hash=x\n".data 0 = false) ∧
    (∀ j, 0 < j → j < 11 → strictBreakAt "numpy==1.26 --hash=x\n".data j = false) := by
  have h : scanReqBody ("numpy==1.26 --hash=x\n".data.drop 0) 0 = (11, true, 12) := by
    simp +decide [scanReqBody, wrapWsLen, isDashDash]
  exact req_body_terminator_characterization "numpy==1.26 --hash=x\n".data 0 11 true 12 h


/-! ## C7: the hash-suffix grammar over arbitrary token sequences -/

/-- The hash-token family of the grammar: a sequence of `--hash` tokens, each
either in the `=value` form (flag `true`) or in the whitespace-separated
`--hash value` form (flag `false`), each token followed by one space of
separating whitespace. -/
def renderHashes : List (Bool × List Char) → List Char
  | [] => []
  | (f, v) :: rest =>
    '-' :: '-' :: 'h' :: 'a' :: 's' :: 'h' ::
      (if f then '=' else ' ') :: (v ++ ' ' :: renderHashes rest)

/-- A hash value as it can appear in a requirements file: nonempty and free
of whitespace (`parse_value` reads a value up to the next whitespace, so a
value can never contain one). -/
def goodHashValue (v : List Char) : Bool :=
  !v.isEmpty && v.all (fun c => !(isRustWhitespace c))

theorem dropWhile_of_all_false {p : Char → Bool} :
    ∀ l : List Char, (∀ c ∈ l, p c = false) → l.dropWhile p = l := by
  intro l h
  cases l with
  | nil => rfl
  | cons a t =>
    rw [List.dropWhile_cons, h a (by simp)]
    simp

theorem trim_end_no_ws {v : List Char}
    (h : v.all (fun c => !(isRustWhitespace c)) = true) : trim_end v = v := by
  unfold trim_end
  rw [dropWhile_of_all_false v.reverse, List.reverse_reverse]
  intro c hc
  have := List.all_eq_true.mp h c (List.mem_reverse.mp hc)
  simpa using this

theorem takeWhile_not_ws_append {v : List Char} (t : List Char)
    (h : v.all (fun c => !(isRustWhitespace c)) = true) :
    (v ++ ' ' :: t).takeWhile (fun c => !(isRustWhitespace c)) = v := by
  induction v with
  | nil => simp [List.takeWhile_cons, show isRustWhitespace ' ' = true from by decide]
  | cons a v ih =>
    simp only [List.all_cons, Bool.and_eq_true] at h
    simp only [List.cons_append, List.takeWhile_cons, h.1, if_true, ih h.2]

/-- `parse_value` on one rendered hash token body: positioned right after the
literal `--hash`, both the `=value` form and the whitespace-separated form
yield the value itself, leaving the cursor on the separating space. -/
theorem parse_value_hash_tok {input : List Char} {p : Nat} {f : Bool}
    {v t : List Char} (path : FsPath) (hv : goodHashValue v = true)
    (hafter : input.drop p = (if f then '=' else ' ') :: (v ++ ' ' :: t)) :
    parse_value ⟨input, p⟩ isRustWhitespace path =
      .ok (v, ⟨input, p + 1 + v.length⟩) := by
  obtain ⟨hne, hall⟩ : (!v.isEmpty) = true ∧
      v.all (fun c => !(isRustWhitespace c)) = true := by
    simpa [goodHashValue, Bool.and_eq_true] using hv
  have htail : input.drop (p + 1) = v ++ ' ' :: t := by
    have h := congrArg List.tail hafter
    rw [List.tail_drop] at h
    simpa using h
  have huntil : (⟨input, p + 1⟩ : Scanner).eatUntilPred isRustWhitespace
      = (v, ⟨input, p + 1 + v.length⟩) := by
    simp only [Scanner.eatUntilPred, Scanner.after, Scanner.advance, htail,
      takeWhile_not_ws_append t hall]
  cases f with
  | true =>
    simp only [Bool.true_eq, if_true] at hafter
    unfold parse_value
    rw [show (⟨input, p⟩ : Scanner).eatIfChar '=' = (true, ⟨input, p + 1⟩) from by
      simp [Scanner.eatIfChar, Scanner.peek, Scanner.after, Scanner.advance, hafter]]
    dsimp only
    rw [huntil]
    dsimp only
    rw [trim_end_no_ws hall]
  | false =>
    simp only [Bool.false_eq_true, if_false] at hafter
    obtain ⟨a, v', rfl⟩ : ∃ a v', v = a :: v' := by
      cases v with
      | nil => simp at hne
      | cons a v' => exact ⟨a, v', rfl⟩
    have ha : isRustWhitespace a = false := by
      simp only [List.all_cons, Bool.and_eq_true] at hall
      simpa using hall.1
    unfold parse_value
    rw [show (⟨input, p⟩ : Scanner).eatIfChar '=' = (false, ⟨input, p⟩) from by
      simp +decide [Scanner.eatIfChar, Scanner.peek, Scanner.after, hafter]]
    dsimp only
    rw [show (⟨input, p⟩ : Scanner).eatIfPred isRustWhitespace
        = (true, ⟨input, p + 1⟩) from by
      simp +decide [Scanner.eatIfPred, Scanner.peek, Scanner.after, Scanner.advance,
        hafter]]
    dsimp only
    rw [show (⟨input, p + 1⟩ : Scanner).eatWhitespace = ⟨input, p + 1⟩ from by
      simp only [Scanner.eatWhitespace, Scanner.after, Scanner.advance, htail]
      rw [show ((a :: v') ++ ' ' :: t).takeWhile isRustWhitespace = [] from by
        simp [List.takeWhile_cons, ha]]
      simp]
    rw [huntil]
    dsimp only
    rw [trim_end_no_ws hall]

theorem hashRepLen_sep (sep : Char) (hsep : ('-' == sep) = false) (t : List Char) :
    hashRepLen (sep :: t) = 0 := by
  apply hashRepLen_eq_zero
  simp [List.isPrefixOf, hsep]

theorem hashRepLen_hash_tok (sep : Char) (hsep : ('-' == sep) = false) (t : List Char) :
    hashRepLen ('-' :: '-' :: 'h' :: 'a' :: 's' :: 'h' :: sep :: t) = 6 := by
  have h1 : hashRepLen ('-' :: '-' :: 'h' :: 'a' :: 's' :: 'h' :: sep :: t)
      = 6 + hashRepLen (sep :: t) := rfl
  rw [h1, hashRepLen_sep sep hsep t]

/-- The `parse_hashes` accumulation loop on a rendered token sequence: every
remaining token's value is appended to the accumulator in encounter order,
and the scanner ends at the end of input. -/
theorem parse_hashes_loop_render (path : FsPath) :
    ∀ (toks : List (Bool × List Char)),
      (∀ tk ∈ toks, goodHashValue tk.2 = true) →
      ∀ (hashes : List (List Char)) (input : List Char) (p : Nat),
        input.drop p = ' ' :: renderHashes toks →
        parse_hashes_loop hashes ⟨input, p⟩ path =
          .ok (hashes ++ toks.map Prod.snd, ⟨input, input.length⟩) := by
  intro toks
  induction toks with
  | nil =>
    intro _ hashes input p hafter
    simp only [renderHashes] at hafter
    have hlen := congrArg List.length hafter
    simp only [List.length_drop, List.length_cons, List.length_nil] at hlen
    have hplen : input.length = p + 1 := by omega
    have htail : input.drop (p + 1) = [] := by
      have h := congrArg List.tail hafter
      rw [List.tail_drop] at h
      simpa using h
    rw [parse_hashes_loop.eq_def]
    simp +decide [Scanner.eatWrappableWhitespace, Scanner.after, Scanner.advance,
      hafter, htail, wrapWsLen, hashRepLen, hplen]
  | cons tk rest ih =>
    intro hwf hashes input p hafter
    obtain ⟨f, v⟩ := tk
    have hv : goodHashValue v = true := hwf (f, v) (by simp)
    have hwf' : ∀ tk ∈ rest, goodHashValue tk.2 = true :=
      fun tk h => hwf tk (by simp [h])
    simp only [renderHashes] at hafter
    have h1 : input.drop (p + 1) = '-' :: '-' :: 'h' :: 'a' :: 's' :: 'h' ::
        (if f then '=' else ' ') :: (v ++ ' ' :: renderHashes rest) := by
      have h := congrArg List.tail hafter
      rw [List.tail_drop] at h
      simpa using h
    have h7 : input.drop (p + 1 + 6) =
        (if f then '=' else ' ') :: (v ++ ' ' :: renderHashes rest) := by
      have h := congrArg (List.drop 6) h1
      rw [List.drop_drop] at h
      simpa using h
    have h8 : input.drop (p + 1 + 6 + 1) = v ++ ' ' :: renderHashes rest := by
      have h := congrArg List.tail h7
      rw [List.tail_drop] at h
      simpa using h
    have h9 : input.drop (p + 1 + 6 + 1 + v.length) = ' ' :: renderHashes rest := by
      have h := congrArg (List.drop v.length) h8
      rw [List.drop_drop] at h
      simpa [List.drop_left] using h
    have hwrap : wrapWsLen (input.drop p) = 1 := by
      rw [hafter, wrapWsLen_white (by decide),
        wrapWsLen_stop_cons (by decide) (fun hc => absurd hc.1 (by decide))]
    have hsep : ('-' == (if f then '=' else ' ')) = false := by
      cases f <;> decide
    have hrep : hashRepLen (input.drop (p + 1)) = 6 := by
      rw [h1, hashRepLen_hash_tok _ hsep]
    have hpv := parse_value_hash_tok path hv h7
    rw [parse_hashes_loop.eq_def]
    simp only [Scanner.eatWrappableWhitespace, Scanner.after, Scanner.advance,
      hwrap, hrep]
    rw [dif_neg (by decide)]
    split
    · rename_i e heq
      rw [hwrap, hrep, hpv] at heq
      simp at heq
    · rename_i hash s3 heq
      rw [hwrap, hrep, hpv] at heq
      obtain ⟨h_eq1, h_eq2⟩ : v = hash ∧
          (⟨input, p + 1 + 6 + 1 + v.length⟩ : Scanner) = s3 := by
        simpa using heq
      subst h_eq1
      subst h_eq2
      rw [ih hwf' (hashes ++ [v]) input (p + 1 + 6 + 1 + v.length) h9]
      simp

/-- C7: (1) the example line `numpy==1.26 --hash=sha256:abc --hash=sha256:def`
parses to a single entry carrying both hash values in encounter order; (2) in
general, a token sequence in which each `--hash` token carries its value
either in the `=value` form or in the whitespace-separated form parses to
exactly the written values in encounter order; and (3) whenever the token
after a requirement body does not literally begin with `--hash`,
`parse_hashes` fails with a structural `Parser` error positioned after the
offending token (which the message carries). -/
theorem hash_suffix_grammar :
    (RequirementsTxt.parse 3 fsC7 ["requirements.txt"] =
      some (.ok ⟨[⟨⟨"numpy==1.26".data⟩,
        ["sha256:abc".data, "sha256:def".data], false⟩], []⟩)) ∧
    (∀ (path : FsPath) (toks : List (Bool × List Char)) (input : List Char)
        (p : Nat),
      toks ≠ [] →
      (∀ tk ∈ toks, goodHashValue tk.2 = true) →
      input.drop p = renderHashes toks →
      parse_hashes ⟨input, p⟩ path =
        .ok (toks.map Prod.snd, ⟨input, input.length⟩)) ∧
    (∀ (s : Scanner) (path : FsPath),
      ¬ (['-', '-', 'h', 'a', 's', 'h'].isPrefixOf s.after = true) →
      parse_hashes s path =
        .error (.Parser
          (.expectedHash (s.after.takeWhile (fun c => !(isRustWhitespace c))))
          path (s.pos + (s.after.takeWhile (fun c => !(isRustWhitespace c))).length))) := by
  refine ⟨?_, ?_, ?_⟩
  · have hread : read_to_string fsC7 ["requirements.txt"] =
        .ok "numpy==1.26 --hash=sha256:abc --hash=sha256:def\n".data := by
      simp +decide [read_to_string, fsC7, List.lookup]
    rw [show (3:Nat) = 2+1 from rfl, RequirementsTxt.parse.eq_def]
    simp +decide [parse_loop, parse_entry, parse_requirement_and_hashes,
      parse_hashes, parse_hashes_loop, parse_value, scanReqBody, hread,
      Scanner.eatWhitespace, Scanner.eatIfStr, Scanner.eatIfChar, Scanner.eatIfPred,
      Scanner.eatUntilPred, Scanner.eat, Scanner.eatWrappableWhitespace, Scanner.done,
      Scanner.peek, Scanner.after, Scanner.advance, wrapWsLen, hashRepLen, isDashDash,
      nlOrHash, trimWs, trim_end, Requirement.from_str, RequirementsTxt.default]
  · intro path toks input p hne hwf hafter
    obtain ⟨⟨f, v⟩, rest, rfl⟩ : ∃ tk rest, toks = tk :: rest := by
      cases toks with
      | nil => exact absurd rfl hne
      | cons tk rest => exact ⟨tk, rest, rfl⟩
    have hv : goodHashValue v = true := hwf (f, v) (by simp)
    have hwf' : ∀ tk ∈ rest, goodHashValue tk.2 = true :=
      fun tk h => hwf tk (by simp [h])
    simp only [renderHashes] at hafter
    have hsep : ('-' == (if f then '=' else ' ')) = false := by
      cases f <;> decide
    have hrep : hashRepLen (input.drop p) = 6 := by
      rw [hafter, hashRepLen_hash_tok _ hsep]
    have h6 : input.drop (p + 6) =
        (if f then '=' else ' ') :: (v ++ ' ' :: renderHashes rest) := by
      have h := congrArg (List.drop 6) hafter
      rw [List.drop_drop] at h
      simpa using h
    have h8 : input.drop (p + 6 + 1) = v ++ ' ' :: renderHashes rest := by
      have h := congrArg List.tail h6
      rw [List.tail_drop] at h
      simpa using h
    have h9 : input.drop (p + 6 + 1 + v.length) = ' ' :: renderHashes rest := by
      have h := congrArg (List.drop v.length) h8
      rw [List.drop_drop] at h
      simpa [List.drop_left] using h
    have hpv := parse_value_hash_tok path hv h6
    simp only [parse_hashes, Scanner.after, Scanner.advance, hrep]
    rw [if_neg (by decide)]
    split
    · rename_i e heq
      rw [hpv] at heq
      simp at heq
    · rename_i hash s2 heq
      rw [hpv] at heq
      obtain ⟨h_eq1, h_eq2⟩ : v = hash ∧
          (⟨input, p + 6 + 1 + v.length⟩ : Scanner) = s2 := by
        simpa using heq
      subst h_eq1
      subst h_eq2
      rw [parse_hashes_loop_render path rest hwf' [v] input (p + 6 + 1 + v.length) h9]
      simp
  · intro s path h
    simp [parse_hashes, hashRepLen_eq_zero h, Scanner.eatUntilPred, Scanner.advance]

theorem hash_suffix_grammar_witness :
    (parse_hashes ⟨"--hash=sha256:abc --hash sha256:def ".data, 0⟩
        ["requirements.txt"] =
      .ok (["sha256:abc".data, "sha256:def".data],
        ⟨"--hash=sha256:abc --hash sha256:def ".data, 36⟩)) ∧
    (parse_hashes ⟨"--wrong x".data, 0⟩ ["requirements.txt"] =
      .error (.Parser (.expectedHash "--wrong".data) ["requirements.txt"] 7)) := by
  constructor
  · have h := hash_suffix_grammar.2.1 ["requirements.txt"]
      [(true, "sha256:abc".data), (false, "sha256:def".data)]
      "--hash=sha256:abc --hash sha256:def ".data 0 (by decide) (by decide) (by decide)
    have h36 : ("--hash=sha256:abc --hash sha256:def ".data).length = 36 := by decide
    rw [h36] at h
    simpa using h
  · have h := hash_suffix_grammar.2.2 ⟨"--wrong x".data, 0⟩ ["requirements.txt"]
      (by decide)
    simpa +decide [Scanner.after] using h
